import Mathlib

set_option maxHeartbeats 1000000

namespace LemonCompiler

/-- Compile error carrying a message and the (flattened) line number, mirroring the
CompilerException and CHECK_ERROR mechanism of the lemonscript compiler.
CHECK_ERROR_NOLINE is modelled with line number 0. -/
structure CompileError where
  message : String
  line : Nat
deriving DecidableEq, Repr

/-- Interval of Compiler::LineNumberTranslation: a start line in the flattened output,
the source file name, and the offset of that start line inside the source file. -/
structure Interval where
  mStartLineNumber : Nat
  mFilename : String
  mLineOffsetInFile : Nat
deriving DecidableEq, Repr

/-- Reduction of an integer to the range of a 32-bit unsigned value, for the uint32
arithmetic the source performs when translating line numbers. -/
def u32 (i : Int) : Nat := (i % (2 ^ 32 : Int)).toNat

/-- Loop of Compiler::LineNumberTranslation::translateLineNumber (Compiler.cpp lines
53-55): starting from the first interval, advance while the next interval has
mStartLineNumber strictly below the queried line number. -/
def translateLoop (cur : Interval) (rest : List Interval) (lineNumber : Nat) : Interval :=
  match rest with
  | [] => cur
  | next :: rest' =>
      if next.mStartLineNumber < lineNumber then translateLoop next rest' lineNumber else cur

/-- Compiler::LineNumberTranslation::translateLineNumber (Compiler.cpp lines 44-60):
with no intervals the CHECK_ERROR_NOLINE reports "Error resolving line number";
otherwise the interval selected by the loop translates the line number with uint32
arithmetic and contributes its file name. -/
def translateLineNumber (intervals : List Interval) (lineNumber : Nat) :
    Except CompileError (Nat × String) :=
  match intervals with
  | [] => .error ⟨"Error resolving line number", 0⟩
  | cur :: rest =>
      let interval := translateLoop cur rest lineNumber
      .ok (u32 ((lineNumber : Int) - (interval.mStartLineNumber : Int) +
                (interval.mLineOffsetInFile : Int)),
           interval.mFilename)

/-- Compiler::LineNumberTranslation::push (Compiler.cpp lines 62-69): update the last
interval in place when it has the same start line, otherwise append a new interval. -/
def pushInterval (intervals : List Interval) (currentLineNumber : Nat) (filename : String)
    (lineOffsetInFile : Nat) : List Interval :=
  match intervals.getLast? with
  | some last =>
      if last.mStartLineNumber = currentLineNumber then
        intervals.dropLast ++ [⟨currentLineNumber, filename, lineOffsetInFile⟩]
      else
        intervals ++ [⟨currentLineNumber, filename, lineOffsetInFile⟩]
  | none => [⟨currentLineNumber, filename, lineOffsetInFile⟩]

/-- Reading of claim C2 taken literally from the specification wording, for comparison
with the source behaviour: select the last interval whose mStartLineNumber is less than
or equal to the queried line (falling back to the first interval). -/
def lastIntervalLE (cur : Interval) (rest : List Interval) (L : Nat) : Interval :=
  ((cur :: rest).filter (fun iv => iv.mStartLineNumber ≤ L)).getLastD cur

/-- Result the specification wording of claim C2 predicts for a non-empty interval
list: translate through the last interval with start less than or equal to the line. -/
def translateLineNumberSpecLE (cur : Interval) (rest : List Interval) (L : Nat) :
    Nat × String :=
  let interval := lastIntervalLE cur rest L
  (u32 ((L : Int) - (interval.mStartLineNumber : Int) + (interval.mLineOffsetInFile : Int)),
   interval.mFilename)

/-- Selection the source actually makes, in closed form: the last interval whose start
is strictly below the queried line number, or the first interval when there is none. -/
def lastIntervalLT (cur : Interval) (rest : List Interval) (L : Nat) : Interval :=
  ((cur :: rest).filter (fun iv => iv.mStartLineNumber < L)).getLastD cur

theorem translateLoop_eq_takeWhile (L : Nat) :
    ∀ (rest : List Interval) (cur : Interval),
      translateLoop cur rest L =
        (cur :: rest.takeWhile (fun iv => decide (iv.mStartLineNumber < L))).getLast
          (by simp) := by
  intro rest
  induction rest with
  | nil => intro cur; simp [translateLoop]
  | cons next rest' ih =>
      intro cur
      by_cases h : next.mStartLineNumber < L
      · rw [translateLoop]
        simp only [h, if_true]
        rw [ih next]
        rw [List.takeWhile_cons]
        simp [h]
      · rw [translateLoop]
        simp only [h, if_false]
        rw [List.takeWhile_cons]
        simp [h]

theorem filter_eq_nil_of_sorted_ge (L : Nat) (rest : List Interval) (bound : Nat)
    (hb : ¬ bound < L)
    (hs : ∀ iv ∈ rest, bound < iv.mStartLineNumber) :
    rest.filter (fun iv => decide (iv.mStartLineNumber < L)) = [] := by
  apply List.filter_eq_nil_iff.mpr
  intro iv hiv
  simp only [decide_eq_true_eq]
  intro hlt
  exact hb (Nat.lt_of_le_of_lt (Nat.le_of_lt (hs iv hiv)) hlt)

theorem takeWhile_eq_filter_sorted (L : Nat) :
    ∀ (rest : List Interval),
      List.Pairwise (fun a b => a.mStartLineNumber < b.mStartLineNumber) rest →
      rest.takeWhile (fun iv => decide (iv.mStartLineNumber < L)) =
        rest.filter (fun iv => decide (iv.mStartLineNumber < L)) := by
  intro rest
  induction rest with
  | nil => intro _; rfl
  | cons next rest' ih =>
      intro hp
      rw [List.pairwise_cons] at hp
      obtain ⟨hnext, hp'⟩ := hp
      by_cases h : next.mStartLineNumber < L
      · rw [List.takeWhile_cons, List.filter_cons]
        simp [h, ih hp']
      · rw [List.takeWhile_cons, List.filter_cons]
        simp [h, filter_eq_nil_of_sorted_ge L rest' next.mStartLineNumber h hnext]

theorem translateLoop_eq_lastIntervalLT (cur : Interval) (rest : List Interval) (L : Nat)
    (hsorted : List.Pairwise (fun a b => a.mStartLineNumber < b.mStartLineNumber)
      (cur :: rest)) :
    translateLoop cur rest L = lastIntervalLT cur rest L := by
  rw [List.pairwise_cons] at hsorted
  obtain ⟨hcur, hrest⟩ := hsorted
  rw [translateLoop_eq_takeWhile L rest cur]
  unfold lastIntervalLT
  rw [takeWhile_eq_filter_sorted L rest hrest]
  rw [List.filter_cons, List.getLast_eq_getLastD]
  by_cases h : cur.mStartLineNumber < L
  · rw [if_pos (by simp [h]), List.getLastD_cons]
  · rw [if_neg (by simp [h])]

/-- C10: calling translateLineNumber on an empty interval list never indexes into the
vector; for every queried line number it reports the compile error
"Error resolving line number". -/
theorem C10_translateLineNumber_empty (L : Nat) :
    translateLineNumber [] L = .error ⟨"Error resolving line number", 0⟩ := rfl

/-- C2 counterexample: the claim as stated selects the last interval with start less
than or equal to the line, but on the list [(start 1, "a"), (start 5, "b")] queried at
line 5 the source selects the interval of "a" (start strictly below 5), not "b". -/
theorem C2_counterexample :
    translateLineNumber [⟨1, "a", 0⟩, ⟨5, "b", 0⟩] 5 = .ok (4, "a") ∧
    translateLineNumberSpecLE ⟨1, "a", 0⟩ [⟨5, "b", 0⟩] 5 = (0, "b") ∧
    ((4 : Nat), "a") ≠ ((0 : Nat), "b") := by
  refine ⟨rfl, rfl, by simp⟩

/-- C2 amended: for a non-empty interval list with strictly increasing start lines,
translateLineNumber selects the last interval whose mStartLineNumber is strictly less
than the queried line (the first interval if there is none) and returns the pair
(line - start + offset in uint32 arithmetic, that interval's file name). -/
theorem C2_translateLineNumber_amended (cur : Interval) (rest : List Interval) (L : Nat)
    (hsorted : List.Pairwise (fun a b => a.mStartLineNumber < b.mStartLineNumber)
      (cur :: rest)) :
    translateLineNumber (cur :: rest) L =
      .ok (u32 ((L : Int) - ((lastIntervalLT cur rest L).mStartLineNumber : Int) +
                ((lastIntervalLT cur rest L).mLineOffsetInFile : Int)),
           (lastIntervalLT cur rest L).mFilename) := by
  show Except.ok _ = _
  rw [translateLoop_eq_lastIntervalLT cur rest L hsorted]

/-- C2 amended witness: the amended theorem applied to a concrete sorted list. -/
theorem C2_translateLineNumber_amended_witness :
    translateLineNumber [⟨1, "a", 0⟩, ⟨5, "b", 0⟩] 7 = .ok (2, "b") := by
  have h := C2_translateLineNumber_amended ⟨1, "a", 0⟩ [⟨5, "b", 0⟩] 7
    (by simp)
  simpa using h

/-- Keywords of the lemonscript language (lemon/compiler Keyword enum), including the
block markers. -/
inductive Keyword where
  | BLOCK_BEGIN
  | BLOCK_END
  | FUNCTION
  | GLOBAL
  | DEFINE
  | RETURN
  | CALL
  | JUMP
  | BREAK
  | CONTINUE
  | IF
  | ELSE
  | WHILE
  | FOR
deriving DecidableEq, Repr

/-- Operators of the lemonscript token model; only the operators the compiled claims
touch are listed (the full Operator enum is larger). -/
inductive Op where
  | ASSIGN
  | PARENTHESIS_LEFT
  | PARENTHESIS_RIGHT
  | COMMA_SEPARATOR
  | SEMICOLON_SEPARATOR
  | COLON
deriving DecidableEq, Repr

/-- A data type reference (DataTypeDefinition pointer in the source), modelled by the
type name. -/
abbrev DataType := String

/-- Tokens produced by the per-line tokenizer (ParserToken variants of the source). -/
inductive ParserToken where
  | keyword (k : Keyword)
  | vartype (dataType : DataType)
  | operator (op : Op)
  | label (name : String)
  | pragma (content : String)
  | constant (value : Nat)
  | stringLiteral (str : String)
  | identifier (name : String)
deriving DecidableEq, Repr

/-- Compiler tokens (Token variants of the source). A ConstantToken is a
StatementToken in the source hierarchy; variableRef models a resolved variable
reference statement produced by token processing. -/
inductive Token where
  | keyword (k : Keyword)
  | vartype (dataType : DataType)
  | operator (op : Op)
  | label (name : String)
  | constant (value : Nat)
  | identifier (name : String)
  | variableRef (name : String)
deriving DecidableEq, Repr

/-- Token::isStatement: constants and resolved variable references are statements. -/
def Token.isStatement : Token → Bool
  | .constant _ => true
  | .variableRef _ => true
  | _ => false

/-- Helper isOperator of Compiler.cpp (lines 37-40). -/
def isOperator (t : Token) (op : Op) : Bool :=
  match t with
  | .operator o => o = op
  | _ => false

/-- Modelled from the spec: rmx::getMurmur2_64 (the rmx library is not under src/), a
64-bit string hash used for string literal interning; modelled as an executable 64-bit
fold, since the claims depend only on interning by a 64-bit hash. -/
def getMurmur2_64 (s : String) : Nat :=
  s.toList.foldl (fun h c => (h * 1099511628211 + c.toNat) % 2 ^ 64) 0

/-- A global variable of the module (lemon/program Variable); the initial value is
none until a constant initializer assigns it. -/
structure GlobalVariable where
  name : String
  dataType : DataType
  mInitialValue : Option Nat
deriving DecidableEq, Repr

/-- A define of the module: name, data type and the substitution token list. -/
structure Define where
  name : String
  dataType : DataType
  mContent : List Token
deriving DecidableEq, Repr

/-- A local variable of a script function. -/
structure LocalVariable where
  name : String
  dataType : DataType
  line : Nat
deriving DecidableEq, Repr

/-- A function parameter (Function::Parameter). -/
structure Parameter where
  mType : DataType
  mIdentifier : String
deriving DecidableEq, Repr

/-- A script function of the module (lemon/program ScriptFunction); opcode emission is
out of scope, the fields end at the data the compiler front end fills in. -/
structure ScriptFunction where
  name : String
  returnType : DataType
  parameters : List Parameter
  mLocalVariablesById : List LocalVariable
  mPragmas : List String
  mSourceFilename : String
  mSourceBaseLineOffset : Nat
deriving DecidableEq, Repr

/-- Modelled from the spec: the Module and GlobalsLookup symbol tables
(lemon/program Module.cpp and GlobalsLookup.cpp are not under src/): registered string
literals (hash and stored string, keyed by hash), script functions, global variables
and defines, each accumulated in registration order. -/
structure ModuleState where
  stringLiterals : List (Nat × String)
  functions : List ScriptFunction
  globals : List GlobalVariable
  defines : List Define
deriving DecidableEq, Repr

/-- The empty module, as produced by Module::startCompiling. -/
def emptyModule : ModuleState := ⟨[], [], [], []⟩

/-- Modelled from the spec: GlobalsLookup::getStringLiteralByHash, lookup of an
already interned string literal by its 64-bit hash. -/
def getStringLiteralByHash (m : ModuleState) (hash : Nat) : Option (Nat × String) :=
  m.stringLiterals.find? (fun e => e.1 = hash)

/-- Modelled from the spec: Module::addStringLiteral with a precomputed hash;
deduplicates against already registered literals by hash and returns the stored
string. -/
def addStringLiteralWithHash (m : ModuleState) (str : String) (hash : Nat) :
    ModuleState × (Nat × String) :=
  match getStringLiteralByHash m hash with
  | some stored => (m, stored)
  | none => ({ m with stringLiterals := m.stringLiterals ++ [(hash, str)] }, (hash, str))

/-- Modelled from the spec: Module::addStringLiteral computing the hash itself, as
called while collecting string literals in buildNodesFromCodeLines. -/
def addStringLiteral (m : ModuleState) (str : String) : ModuleState :=
  (addStringLiteralWithHash m str (getMurmur2_64 str)).1

/-- Nodes of the compiler (lemon/compiler Node variants), each carrying its line
number. -/
inductive Node where
  | block (nodes : List Node) (line : Nat)
  | undefined (tokens : List Token) (line : Nat)
  | pragma (content : String) (line : Nat)
  | functionNode (fnIndex : Nat) (content : Node) (line : Nat)
  | statement (st : Token) (line : Nat)
  | returnStmt (st : Option Token) (line : Nat)
  | externalNode (st : Token) (isCall : Bool) (line : Nat)
  | jumpNode (labelName : String) (line : Nat)
  | breakNode (line : Nat)
  | continueNode (line : Nat)
  | ifStatement (cond : Token) (contentIf : Option Node) (contentElse : Option Node)
      (line : Nat)
  | elseStatement (line : Nat)
  | whileStatement (cond : Token) (content : Option Node) (line : Nat)
  | forStatement (initial : Option Token) (cond : Option Token) (iteration : Option Token)
      (content : Option Node) (line : Nat)
  | labelNode (name : String) (line : Nat)
deriving Repr

/-- Node::getLineNumber. -/
def Node.getLineNumber : Node → Nat
  | .block _ line => line
  | .undefined _ line => line
  | .pragma _ line => line
  | .functionNode _ _ line => line
  | .statement _ line => line
  | .returnStmt _ line => line
  | .externalNode _ _ line => line
  | .jumpNode _ line => line
  | .breakNode line => line
  | .continueNode line => line
  | .ifStatement _ _ _ line => line
  | .elseStatement line => line
  | .whileStatement _ _ line => line
  | .forStatement _ _ _ _ line => line
  | .labelNode _ line => line

/-- Translation of one parser token into a compiler token (Compiler.cpp lines
376-430); pragma parser tokens are dropped, a string literal is looked up by hash,
added when missing, and replaced by a Constant carrying the stored string's hash. -/
def translateParserToken (m : ModuleState) (pt : ParserToken) : ModuleState × Option Token :=
  match pt with
  | .keyword k => (m, some (.keyword k))
  | .vartype d => (m, some (.vartype d))
  | .operator op => (m, some (.operator op))
  | .label n => (m, some (.label n))
  | .pragma _ => (m, none)
  | .constant v => (m, some (.constant v))
  | .stringLiteral s =>
      let hash := getMurmur2_64 s
      match getStringLiteralByHash m hash with
      | some stored => (m, some (.constant stored.1))
      | none =>
          let p := addStringLiteralWithHash m s hash
          (p.1, some (.constant p.2.1))
  | .identifier n => (m, some (.identifier n))

/-- Translation of a whole line of parser tokens into the token list of an
UndefinedNode (loop of Compiler.cpp lines 376-431). -/
def translateLineTokens (m : ModuleState) : List ParserToken → ModuleState × List Token
  | [] => (m, [])
  | pt :: rest =>
      let p := translateParserToken m pt
      let q := translateLineTokens p.1 rest
      (q.1, p.2.toList ++ q.2)

/-- Collection of all string literals of a line into the module string table
(Compiler.cpp lines 316-323), before the line is classified. -/
def internLiterals (m : ModuleState) : List ParserToken → ModuleState
  | [] => m
  | pt :: rest =>
      internLiterals (match pt with | .stringLiteral s => addStringLiteral m s | _ => m) rest

/-- Loop of Compiler::buildNodesFromCodeLines (Compiler.cpp lines 298-436): the
current block's children are cur, the suspended outer blocks (with the line of their
opening brace) form the stack, and lineNumber counts processed lines. At end of input
the CHECK at line 435 requires the stack to be back at the root block. -/
def buildLoop (m : ModuleState) (cur : List Node) (stack : List (List Node × Nat))
    (lineNumber : Nat) : List (List ParserToken) → Except CompileError (ModuleState × List Node)
  | [] =>
      if stack.isEmpty then .ok (m, cur)
      else .error ⟨"More blocks opened than closed", lineNumber⟩
  | line :: rest =>
      let ln := lineNumber + 1
      if line.isEmpty then
        buildLoop m cur stack ln rest
      else
        let m1 := internLiterals m line
        if line.head? = some (ParserToken.keyword .BLOCK_BEGIN) then
          if line.length = 1 then
            buildLoop m1 [] ((cur, ln) :: stack) ln rest
          else .error ⟨"Curly brace must use its own line", ln⟩
        else if line.head? = some (ParserToken.keyword .BLOCK_END) then
          if line.length = 1 then
            match stack with
            | [] => .error ⟨"Closed too many blocks", ln⟩
            | (parent, bln) :: stack' =>
                buildLoop m1 (parent ++ [.block cur bln]) stack' ln rest
          else .error ⟨"Curly brace must use its own line", ln⟩
        else
          match line.head? with
          | some (.pragma content) =>
              buildLoop m1 (cur ++ [.pragma content ln]) stack ln rest
          | _ =>
              let q := translateLineTokens m1 line
              buildLoop q.1 (cur ++ [.undefined q.2 ln]) stack ln rest

/-- Compiler::buildNodesFromCodeLines on pre-tokenized lines (the per-line tokenizer
Parser.cpp is not under src/); returns the updated module and the root block's child
nodes. -/
def buildNodesFromCodeLines (m : ModuleState) (lines : List (List ParserToken)) :
    Except CompileError (ModuleState × List Node) :=
  buildLoop m [] [] 0 lines

/-- Block nesting contribution of a line: a lone block-begin line opens a block, a
lone block-end line closes one, everything else leaves the nesting unchanged. -/
def lineDelta (line : List ParserToken) : Int :=
  if line = [ParserToken.keyword .BLOCK_BEGIN] then 1
  else if line = [ParserToken.keyword .BLOCK_END] then -1
  else 0

/-- Sum of the block nesting contributions of a line sequence. -/
def deltaSum (lines : List (List ParserToken)) : Int := (lines.map lineDelta).sum

/-- A line in the scope of claim C1: a canonical block-begin line, a canonical
block-end line, or a line not starting with a block marker keyword. -/
def braceLineOk (line : List ParserToken) : Prop :=
  line = [ParserToken.keyword .BLOCK_BEGIN] ∨ line = [ParserToken.keyword .BLOCK_END] ∨
  (∀ k, line.head? = some (ParserToken.keyword k) → k ≠ .BLOCK_BEGIN ∧ k ≠ .BLOCK_END)

/-- Pure block nesting scan over a line sequence: starting from a depth and a line
counter, produce either the absolute line number of the first block-end at depth zero
or the final depth. -/
def braceScan (depth lineNumber : Nat) : List (List ParserToken) → Sum Nat Nat
  | [] => .inr depth
  | line :: rest =>
      if line = [ParserToken.keyword .BLOCK_BEGIN] then
        braceScan (depth + 1) (lineNumber + 1) rest
      else if line = [ParserToken.keyword .BLOCK_END] then
        match depth with
        | 0 => .inl (lineNumber + 1)
        | d + 1 => braceScan d (lineNumber + 1) rest
      else braceScan depth (lineNumber + 1) rest

theorem buildLoop_braceScan :
    ∀ (lines : List (List ParserToken)) (m : ModuleState) (cur : List Node)
      (stack : List (List Node × Nat)) (ln : Nat),
      (∀ line ∈ lines, braceLineOk line) →
      (∀ j, braceScan stack.length ln lines = .inl j →
          buildLoop m cur stack ln lines = .error ⟨"Closed too many blocks", j⟩) ∧
      (braceScan stack.length ln lines = .inr 0 →
          ∃ m' res, buildLoop m cur stack ln lines = .ok (m', res)) ∧
      (∀ d, braceScan stack.length ln lines = .inr (d + 1) →
          buildLoop m cur stack ln lines =
            .error ⟨"More blocks opened than closed", ln + lines.length⟩) := by
  intro lines
  induction lines with
  | nil =>
      intro m cur stack ln _
      refine ⟨?_, ?_, ?_⟩
      · intro j hj; simp [braceScan] at hj
      · intro h
        simp only [braceScan, Sum.inr.injEq] at h
        have hstack : stack = [] := List.length_eq_zero.mp h
        subst hstack
        exact ⟨m, cur, rfl⟩
      · intro d hd
        simp only [braceScan, Sum.inr.injEq] at hd
        have : ¬ stack.isEmpty := by
          cases stack with
          | nil => simp at hd
          | cons a s => simp
        simp [buildLoop, this]
  | cons line rest ih =>
      intro m cur stack ln hok
      have hline : braceLineOk line := hok line (by simp)
      have hrest : ∀ l ∈ rest, braceLineOk l := fun l hl => hok l (by simp [hl])
      rcases hline with h1 | h2 | h3
      · -- canonical block-begin line
        subst h1
        have hb : buildLoop m cur stack ln ([ParserToken.keyword .BLOCK_BEGIN] :: rest) =
            buildLoop (internLiterals m [ParserToken.keyword .BLOCK_BEGIN]) []
              ((cur, ln + 1) :: stack) (ln + 1) rest := by
          simp [buildLoop]
        have hs : braceScan stack.length ln ([ParserToken.keyword .BLOCK_BEGIN] :: rest) =
            braceScan (stack.length + 1) (ln + 1) rest := by
          simp [braceScan]
        obtain ⟨c1, c2, c3⟩ := ih (internLiterals m [ParserToken.keyword .BLOCK_BEGIN]) []
          ((cur, ln + 1) :: stack) (ln + 1) hrest
        refine ⟨?_, ?_, ?_⟩
        · intro j hj
          rw [hs] at hj
          rw [hb]
          exact c1 j hj
        · intro h
          rw [hs] at h
          rw [hb]
          exact c2 h
        · intro d hd
          rw [hs] at hd
          rw [hb]
          have := c3 d hd
          rw [this]
          congr 1
          simp
          omega
      · -- canonical block-end line
        subst h2
        cases stack with
        | nil =>
            have hb : buildLoop m cur [] ln ([ParserToken.keyword .BLOCK_END] :: rest) =
                .error ⟨"Closed too many blocks", ln + 1⟩ := by
              simp [buildLoop]
            have hs : braceScan ([] : List (List Node × Nat)).length ln
                ([ParserToken.keyword .BLOCK_END] :: rest) = .inl (ln + 1) := by
              simp [braceScan]
            refine ⟨?_, ?_, ?_⟩
            · intro j hj
              rw [hs] at hj
              cases hj
              exact hb
            · intro h
              rw [hs] at h
              cases h
            · intro d hd
              rw [hs] at hd
              cases hd
        | cons top stack' =>
            obtain ⟨parent, bln⟩ := top
            have hb : buildLoop m cur ((parent, bln) :: stack') ln
                ([ParserToken.keyword .BLOCK_END] :: rest) =
                buildLoop (internLiterals m [ParserToken.keyword .BLOCK_END])
                  (parent ++ [.block cur bln]) stack' (ln + 1) rest := by
              simp [buildLoop]
            have hs : braceScan ((parent, bln) :: stack').length ln
                ([ParserToken.keyword .BLOCK_END] :: rest) =
                braceScan stack'.length (ln + 1) rest := by
              simp [braceScan]
            obtain ⟨c1, c2, c3⟩ := ih (internLiterals m [ParserToken.keyword .BLOCK_END])
              (parent ++ [.block cur bln]) stack' (ln + 1) hrest
            refine ⟨?_, ?_, ?_⟩
            · intro j hj
              rw [hs] at hj
              rw [hb]
              exact c1 j hj
            · intro h
              rw [hs] at h
              rw [hb]
              exact c2 h
            · intro d hd
              rw [hs] at hd
              rw [hb]
              rw [c3 d hd]
              congr 1
              simp
              omega
      · -- a line that does not start with a block marker keyword
        have hne1 : line ≠ [ParserToken.keyword .BLOCK_BEGIN] := by
          intro hcontra
          subst hcontra
          exact (h3 .BLOCK_BEGIN rfl).1 rfl
        have hne2 : line ≠ [ParserToken.keyword .BLOCK_END] := by
          intro hcontra
          subst hcontra
          exact (h3 .BLOCK_END rfl).2 rfl
        have hs : braceScan stack.length ln (line :: rest) =
            braceScan stack.length (ln + 1) rest := by
          simp [braceScan, hne1, hne2]
        have hh1 : line.head? ≠ some (ParserToken.keyword .BLOCK_BEGIN) := by
          intro hcontra
          cases line with
          | nil => simp at hcontra
          | cons t ts =>
              simp at hcontra
              subst hcontra
              exact (h3 .BLOCK_BEGIN rfl).1 rfl
        have hh2 : line.head? ≠ some (ParserToken.keyword .BLOCK_END) := by
          intro hcontra
          cases line with
          | nil => simp at hcontra
          | cons t ts =>
              simp at hcontra
              subst hcontra
              exact (h3 .BLOCK_END rfl).2 rfl
        -- identify the state the loop recurses with
        have hb : ∃ m2 cur2, buildLoop m cur stack ln (line :: rest) =
            buildLoop m2 cur2 stack (ln + 1) rest := by
          by_cases hemp : line.isEmpty
          · exact ⟨m, cur, by simp [buildLoop, hemp]⟩
          · cases hhead : line.head? with
            | none =>
                cases line with
                | nil => simp at hemp
                | cons t ts => simp at hhead
            | some t =>
                cases t with
                | pragma content =>
                    refine ⟨internLiterals m line,
                      cur ++ [.pragma content (ln + 1)], ?_⟩
                    simp [buildLoop, hemp, hh1, hh2, hhead]
                | keyword k =>
                    refine ⟨(translateLineTokens (internLiterals m line) line).1,
                      cur ++ [.undefined (translateLineTokens (internLiterals m line) line).2
                        (ln + 1)], ?_⟩
                    have hk := h3 k hhead
                    simp [buildLoop, hemp, hh1, hh2, hhead, hk.1, hk.2]
                | vartype d =>
                    refine ⟨(translateLineTokens (internLiterals m line) line).1,
                      cur ++ [.undefined (translateLineTokens (internLiterals m line) line).2
                        (ln + 1)], ?_⟩
                    simp [buildLoop, hemp, hh1, hh2, hhead]
                | operator op =>
                    refine ⟨(translateLineTokens (internLiterals m line) line).1,
                      cur ++ [.undefined (translateLineTokens (internLiterals m line) line).2
                        (ln + 1)], ?_⟩
                    simp [buildLoop, hemp, hh1, hh2, hhead]
                | label n =>
                    refine ⟨(translateLineTokens (internLiterals m line) line).1,
                      cur ++ [.undefined (translateLineTokens (internLiterals m line) line).2
                        (ln + 1)], ?_⟩
                    simp [buildLoop, hemp, hh1, hh2, hhead]
                | constant v =>
                    refine ⟨(translateLineTokens (internLiterals m line) line).1,
                      cur ++ [.undefined (translateLineTokens (internLiterals m line) line).2
                        (ln + 1)], ?_⟩
                    simp [buildLoop, hemp, hh1, hh2, hhead]
                | stringLiteral s =>
                    refine ⟨(translateLineTokens (internLiterals m line) line).1,
                      cur ++ [.undefined (translateLineTokens (internLiterals m line) line).2
                        (ln + 1)], ?_⟩
                    simp [buildLoop, hemp, hh1, hh2, hhead]
                | identifier n =>
                    refine ⟨(translateLineTokens (internLiterals m line) line).1,
                      cur ++ [.undefined (translateLineTokens (internLiterals m line) line).2
                        (ln + 1)], ?_⟩
                    simp [buildLoop, hemp, hh1, hh2, hhead]
        obtain ⟨m2, cur2, hb⟩ := hb
        obtain ⟨c1, c2, c3⟩ := ih m2 cur2 stack (ln + 1) hrest
        refine ⟨?_, ?_, ?_⟩
        · intro j hj
          rw [hs] at hj
          rw [hb]
          exact c1 j hj
        · intro h
          rw [hs] at h
          rw [hb]
          exact c2 h
        · intro d hd
          rw [hs] at hd
          rw [hb]
          rw [c3 d hd]
          congr 1
          simp
          omega

theorem deltaSum_cons (l : List ParserToken) (rest : List (List ParserToken)) :
    deltaSum (l :: rest) = lineDelta l + deltaSum rest := by
  simp [deltaSum]

theorem braceScan_nonneg :
    ∀ (lines : List (List ParserToken)) (d p : Nat),
      (∀ n, n ≤ lines.length → -(d : Int) ≤ deltaSum (lines.take n)) →
      braceScan d p lines = .inr ((d + deltaSum lines).toNat) := by
  intro lines
  induction lines with
  | nil =>
      intro d p _
      simp [braceScan, deltaSum]
  | cons line rest ih =>
      intro d p h
      by_cases h1 : line = [ParserToken.keyword .BLOCK_BEGIN]
      · subst h1
        have hd : lineDelta [ParserToken.keyword .BLOCK_BEGIN] = 1 := by rfl
        have hrest : ∀ n, n ≤ rest.length → -((d + 1 : Nat) : Int) ≤ deltaSum (rest.take n) := by
          intro n hn
          have := h (n + 1) (by simpa using Nat.succ_le_succ hn)
          rw [List.take_succ_cons, deltaSum_cons, hd] at this
          push_cast
          omega
        have hstep : braceScan d p ([ParserToken.keyword .BLOCK_BEGIN] :: rest) =
            braceScan (d + 1) (p + 1) rest := by
          simp [braceScan]
        rw [hstep, ih (d + 1) (p + 1) hrest, deltaSum_cons, hd]
        congr 1
        push_cast
        omega
      · by_cases h2 : line = [ParserToken.keyword .BLOCK_END]
        · subst h2
          have hd : lineDelta [ParserToken.keyword .BLOCK_END] = -1 := by rfl
          have hpos : 1 ≤ d := by
            have := h 1 (by simp)
            rw [List.take_succ_cons, List.take_zero, deltaSum_cons, hd] at this
            simp [deltaSum] at this
            omega
          obtain ⟨d', rfl⟩ : ∃ d', d = d' + 1 := ⟨d - 1, by omega⟩
          have hrest : ∀ n, n ≤ rest.length → -((d' : Nat) : Int) ≤ deltaSum (rest.take n) := by
            intro n hn
            have := h (n + 1) (by simpa using Nat.succ_le_succ hn)
            rw [List.take_succ_cons, deltaSum_cons, hd] at this
            push_cast at this ⊢
            omega
          have hstep : braceScan (d' + 1) p ([ParserToken.keyword .BLOCK_END] :: rest) =
              braceScan d' (p + 1) rest := by
            simp [braceScan]
          rw [hstep, ih d' (p + 1) hrest, deltaSum_cons, hd]
          congr 1
          push_cast
          omega
        · have hd : lineDelta line = 0 := by
            unfold lineDelta
            rw [if_neg h1, if_neg h2]
          have hrest : ∀ n, n ≤ rest.length → -((d : Nat) : Int) ≤ deltaSum (rest.take n) := by
            intro n hn
            have := h (n + 1) (by simpa using Nat.succ_le_succ hn)
            rw [List.take_succ_cons, deltaSum_cons, hd] at this
            omega
          have hstep : braceScan d p (line :: rest) = braceScan d (p + 1) rest := by
            simp [braceScan, h1, h2]
          rw [hstep, ih d (p + 1) hrest, deltaSum_cons, hd]
          congr 2
          omega

theorem braceScan_append :
    ∀ (A : List (List ParserToken)) (d p d' : Nat) (rest : List (List ParserToken)),
      braceScan d p A = .inr d' →
      braceScan d p (A ++ rest) = braceScan d' (p + A.length) rest := by
  intro A
  induction A with
  | nil =>
      intro d p d' rest h
      simp [braceScan] at h
      subst h
      simp
  | cons line A' ih =>
      intro d p d' rest h
      by_cases h1 : line = [ParserToken.keyword .BLOCK_BEGIN]
      · subst h1
        have hstep : ∀ (tail : List (List ParserToken)) (q : Nat),
            braceScan d q ([ParserToken.keyword .BLOCK_BEGIN] :: tail) =
              braceScan (d + 1) (q + 1) tail := by
          intro tail q
          simp [braceScan]
        rw [hstep A' p] at h
        rw [List.cons_append, hstep (A' ++ rest) p]
        rw [ih (d + 1) (p + 1) d' rest h]
        congr 1
        simp
        omega
      · by_cases h2 : line = [ParserToken.keyword .BLOCK_END]
        · subst h2
          cases d with
          | zero =>
              have : braceScan 0 p ([ParserToken.keyword .BLOCK_END] :: A') =
                  .inl (p + 1) := by
                simp [braceScan]
              rw [this] at h
              cases h
          | succ dd =>
              have hstep : ∀ (tail : List (List ParserToken)) (q : Nat),
                  braceScan (dd + 1) q ([ParserToken.keyword .BLOCK_END] :: tail) =
                    braceScan dd (q + 1) tail := by
                intro tail q
                simp [braceScan]
              rw [hstep A' p] at h
              rw [List.cons_append, hstep (A' ++ rest) p]
              rw [ih dd (p + 1) d' rest h]
              congr 1
              simp
              omega
        · have hstep : ∀ (tail : List (List ParserToken)) (q : Nat),
              braceScan d q (line :: tail) = braceScan d (q + 1) tail := by
            intro tail q
            simp [braceScan, h1, h2]
          rw [hstep A' p] at h
          rw [List.cons_append, hstep (A' ++ rest) p]
          rw [ih d (p + 1) d' rest h]
          congr 1
          simp
          omega

/-- C1: over lines that are canonical brace lines or lines not starting with a block
marker, buildNodesFromCodeLines succeeds whenever the brace lines are balanced; with a
block-end line appended after a balanced prefix it raises exactly the structural error
"Closed too many blocks" at that line; and with the braces closing one short over the
whole input it raises exactly the structural error "More blocks opened than closed" at
the last line. The single Except error models that a CHECK_ERROR failure aborts the
compile, so exactly one structural error is reported. -/
theorem C1_buildNodes_block_balance (m : ModuleState) (lines : List (List ParserToken))
    (hok : ∀ line ∈ lines, braceLineOk line) :
    ((∀ n, n ≤ lines.length → 0 ≤ deltaSum (lines.take n)) → deltaSum lines = 0 →
        ∃ m' res, buildNodesFromCodeLines m lines = .ok (m', res)) ∧
    (∀ A B, lines = A ++ [ParserToken.keyword .BLOCK_END] :: B →
        (∀ n, n ≤ A.length → 0 ≤ deltaSum (A.take n)) → deltaSum A = 0 →
        buildNodesFromCodeLines m lines =
          .error ⟨"Closed too many blocks", A.length + 1⟩) ∧
    ((∀ n, n ≤ lines.length → 0 ≤ deltaSum (lines.take n)) → deltaSum lines = 1 →
        buildNodesFromCodeLines m lines =
          .error ⟨"More blocks opened than closed", lines.length⟩) := by
  obtain ⟨c1, c2, c3⟩ := buildLoop_braceScan lines m [] [] 0 hok
  simp only [List.length_nil] at c1 c2 c3
  refine ⟨?_, ?_, ?_⟩
  · intro hpre htot
    apply c2
    have := braceScan_nonneg lines 0 0 (by intro n hn; simpa using hpre n hn)
    rw [this, htot]
    rfl
  · intro A B hsplit hpre htot
    subst hsplit
    apply c1
    have hA : braceScan 0 0 A = .inr 0 := by
      have := braceScan_nonneg A 0 0 (by intro n hn; simpa using hpre n hn)
      rw [this, htot]
      rfl
    rw [braceScan_append A 0 0 0 _ hA]
    simp [braceScan]
  · intro hpre htot
    have hs : braceScan 0 0 lines = .inr 1 := by
      have := braceScan_nonneg lines 0 0 (by intro n hn; simpa using hpre n hn)
      rw [this, htot]
      rfl
    have := c3 0 hs
    simpa using this

/-- C1 witness: the three conjuncts applied to concrete line sequences: a balanced
pair of brace lines compiles, a lone block-end line fails at line 1 with
"Closed too many blocks", and a lone block-begin line fails at end of input with
"More blocks opened than closed". -/
theorem C1_buildNodes_block_balance_witness :
    (∃ m' res, buildNodesFromCodeLines emptyModule
        [[ParserToken.keyword .BLOCK_BEGIN], [ParserToken.keyword .BLOCK_END]] =
          .ok (m', res)) ∧
    buildNodesFromCodeLines emptyModule [[ParserToken.keyword .BLOCK_END]] =
      .error ⟨"Closed too many blocks", 1⟩ ∧
    buildNodesFromCodeLines emptyModule [[ParserToken.keyword .BLOCK_BEGIN]] =
      .error ⟨"More blocks opened than closed", 1⟩ := by
  refine ⟨?_, ?_, ?_⟩
  · refine (C1_buildNodes_block_balance emptyModule _ ?_).1 (by decide) (by decide)
    intro line hline
    simp at hline
    rcases hline with h | h
    · subst h; exact Or.inl rfl
    · subst h; exact Or.inr (Or.inl rfl)
  · have := (C1_buildNodes_block_balance emptyModule
        [[ParserToken.keyword .BLOCK_END]] ?_).2.1 [] [] rfl (by decide) (by decide)
    · simpa using this
    · intro line hline
      simp at hline
      subst hline
      exact Or.inr (Or.inl rfl)
  · have := (C1_buildNodes_block_balance emptyModule
        [[ParserToken.keyword .BLOCK_BEGIN]] ?_).2.2 (by decide) (by decide)
    · simpa using this
    · intro line hline
      simp at hline
      subst hline
      exact Or.inl rfl

/-- Presence of a hash among the registered string literals of a module. -/
def containsHash (m : ModuleState) (x : Nat) : Prop :=
  ∃ e ∈ m.stringLiterals, e.1 = x

theorem addStringLiteralWithHash_mono (m : ModuleState) (s : String) (hash x : Nat)
    (h : containsHash m x) : containsHash (addStringLiteralWithHash m s hash).1 x := by
  unfold addStringLiteralWithHash
  cases hfind : getStringLiteralByHash m hash with
  | some stored => exact h
  | none =>
      obtain ⟨e, he, hx⟩ := h
      exact ⟨e, by simp [he], hx⟩

theorem addStringLiteralWithHash_contains (m : ModuleState) (s : String) (hash : Nat) :
    containsHash (addStringLiteralWithHash m s hash).1 hash := by
  unfold addStringLiteralWithHash
  cases hfind : getStringLiteralByHash m hash with
  | some stored =>
      refine ⟨stored, List.mem_of_find?_eq_some hfind, ?_⟩
      have := List.find?_some hfind
      simpa using this
  | none => exact ⟨(hash, s), by simp, rfl⟩

theorem addStringLiteralWithHash_nodup (m : ModuleState) (s : String) (hash : Nat)
    (h : (m.stringLiterals.map Prod.fst).Nodup) :
    (((addStringLiteralWithHash m s hash).1).stringLiterals.map Prod.fst).Nodup := by
  unfold addStringLiteralWithHash
  cases hfind : getStringLiteralByHash m hash with
  | some stored => exact h
  | none =>
      have hnotin : hash ∉ m.stringLiterals.map Prod.fst := by
        intro hmem
        obtain ⟨e, he, hx⟩ := List.mem_map.mp hmem
        have := List.find?_eq_none.mp hfind e he
        simp [hx] at this
      simp only [List.map_append, List.map_cons, List.map_nil]
      exact List.Nodup.append h (by simp) (by
        intro a ha hb
        simp at hb
        subst hb
        exact hnotin ha)

theorem addStringLiteral_mono (m : ModuleState) (s : String) (x : Nat)
    (h : containsHash m x) : containsHash (addStringLiteral m s) x :=
  addStringLiteralWithHash_mono m s (getMurmur2_64 s) x h

theorem addStringLiteral_contains (m : ModuleState) (s : String) :
    containsHash (addStringLiteral m s) (getMurmur2_64 s) :=
  addStringLiteralWithHash_contains m s (getMurmur2_64 s)

theorem addStringLiteral_nodup (m : ModuleState) (s : String)
    (h : (m.stringLiterals.map Prod.fst).Nodup) :
    ((addStringLiteral m s).stringLiterals.map Prod.fst).Nodup :=
  addStringLiteralWithHash_nodup m s (getMurmur2_64 s) h

theorem internLiterals_mono :
    ∀ (line : List ParserToken) (m : ModuleState) (x : Nat),
      containsHash m x → containsHash (internLiterals m line) x := by
  intro line
  induction line with
  | nil => intro m x h; exact h
  | cons pt rest ih =>
      intro m x h
      cases pt with
      | stringLiteral s => exact ih _ _ (addStringLiteral_mono m s x h)
      | keyword k => exact ih _ _ h
      | vartype d => exact ih _ _ h
      | operator op => exact ih _ _ h
      | label n => exact ih _ _ h
      | pragma c => exact ih _ _ h
      | constant v => exact ih _ _ h
      | identifier n => exact ih _ _ h

theorem internLiterals_contains :
    ∀ (line : List ParserToken) (m : ModuleState) (s : String),
      ParserToken.stringLiteral s ∈ line →
      containsHash (internLiterals m line) (getMurmur2_64 s) := by
  intro line
  induction line with
  | nil => intro m s h; simp at h
  | cons pt rest ih =>
      intro m s h
      rcases List.mem_cons.mp h with heq | hmem
      · subst heq
        exact internLiterals_mono rest _ _ (addStringLiteral_contains m s)
      · cases pt with
        | stringLiteral t => exact ih _ s hmem
        | keyword k => exact ih _ s hmem
        | vartype d => exact ih _ s hmem
        | operator op => exact ih _ s hmem
        | label n => exact ih _ s hmem
        | pragma c => exact ih _ s hmem
        | constant v => exact ih _ s hmem
        | identifier n => exact ih _ s hmem

theorem internLiterals_nodup :
    ∀ (line : List ParserToken) (m : ModuleState),
      (m.stringLiterals.map Prod.fst).Nodup →
      ((internLiterals m line).stringLiterals.map Prod.fst).Nodup := by
  intro line
  induction line with
  | nil => intro m h; exact h
  | cons pt rest ih =>
      intro m h
      cases pt with
      | stringLiteral s => exact ih _ (addStringLiteral_nodup m s h)
      | keyword k => exact ih _ h
      | vartype d => exact ih _ h
      | operator op => exact ih _ h
      | label n => exact ih _ h
      | pragma c => exact ih _ h
      | constant v => exact ih _ h
      | identifier n => exact ih _ h

theorem translateParserToken_mono (pt : ParserToken) (m : ModuleState) (x : Nat)
    (h : containsHash m x) : containsHash (translateParserToken m pt).1 x := by
  cases pt with
  | stringLiteral s =>
      cases hfind : getStringLiteralByHash m (getMurmur2_64 s) with
      | some stored => simpa [translateParserToken, hfind] using h
      | none =>
          have hmono := addStringLiteralWithHash_mono m s (getMurmur2_64 s) x h
          simpa [translateParserToken, hfind] using hmono
  | keyword k => exact h
  | vartype d => exact h
  | operator op => exact h
  | label n => exact h
  | pragma c => exact h
  | constant v => exact h
  | identifier n => exact h

theorem translateParserToken_nodup (pt : ParserToken) (m : ModuleState)
    (h : (m.stringLiterals.map Prod.fst).Nodup) :
    (((translateParserToken m pt).1).stringLiterals.map Prod.fst).Nodup := by
  cases pt with
  | stringLiteral s =>
      cases hfind : getStringLiteralByHash m (getMurmur2_64 s) with
      | some stored => simpa [translateParserToken, hfind] using h
      | none =>
          have hnd := addStringLiteralWithHash_nodup m s (getMurmur2_64 s) h
          simpa [translateParserToken, hfind] using hnd
  | keyword k => exact h
  | vartype d => exact h
  | operator op => exact h
  | label n => exact h
  | pragma c => exact h
  | constant v => exact h
  | identifier n => exact h

theorem translateLineTokens_mono :
    ∀ (line : List ParserToken) (m : ModuleState) (x : Nat),
      containsHash m x → containsHash (translateLineTokens m line).1 x := by
  intro line
  induction line with
  | nil => intro m x h; exact h
  | cons pt rest ih =>
      intro m x h
      exact ih _ _ (translateParserToken_mono pt m x h)

theorem translateLineTokens_nodup :
    ∀ (line : List ParserToken) (m : ModuleState),
      (m.stringLiterals.map Prod.fst).Nodup →
      (((translateLineTokens m line).1).stringLiterals.map Prod.fst).Nodup := by
  intro line
  induction line with
  | nil => intro m h; exact h
  | cons pt rest ih =>
      intro m h
      exact ih _ (translateParserToken_nodup pt m h)

/-- Compiler token claim C7 predicts for each parser token: pragmas are dropped and a
string literal becomes a Constant carrying the hash of the string. -/
def expectedCompilerToken : ParserToken → Option Token
  | .keyword k => some (.keyword k)
  | .vartype d => some (.vartype d)
  | .operator op => some (.operator op)
  | .label n => some (.label n)
  | .pragma _ => none
  | .constant v => some (.constant v)
  | .stringLiteral s => some (.constant (getMurmur2_64 s))
  | .identifier n => some (.identifier n)

theorem translateParserToken_snd (m : ModuleState) (pt : ParserToken) :
    (translateParserToken m pt).2 = expectedCompilerToken pt := by
  cases pt with
  | stringLiteral s =>
      cases hfind : getStringLiteralByHash m (getMurmur2_64 s) with
      | some stored =>
          have hpred := List.find?_some hfind
          simp only [decide_eq_true_eq] at hpred
          simp [translateParserToken, expectedCompilerToken, hfind, hpred]
      | none =>
          simp [translateParserToken, expectedCompilerToken, addStringLiteralWithHash, hfind]
  | keyword k => rfl
  | vartype d => rfl
  | operator op => rfl
  | label n => rfl
  | pragma c => rfl
  | constant v => rfl
  | identifier n => rfl

theorem translateLineTokens_snd :
    ∀ (line : List ParserToken) (m : ModuleState),
      (translateLineTokens m line).2 = line.filterMap expectedCompilerToken := by
  intro line
  induction line with
  | nil => intro m; rfl
  | cons pt rest ih =>
      intro m
      show ((translateParserToken m pt).2.toList ++
          (translateLineTokens (translateParserToken m pt).1 rest).2) = _
      rw [translateParserToken_snd, ih]
      rw [List.filterMap_cons]
      cases expectedCompilerToken pt <;> simp

theorem buildLoop_cons_undef (m : ModuleState) (cur : List Node)
    (stack : List (List Node × Nat)) (ln : Nat) (line : List ParserToken)
    (rest : List (List ParserToken))
    (hemp : line.isEmpty = false)
    (hh1 : line.head? ≠ some (ParserToken.keyword .BLOCK_BEGIN))
    (hh2 : line.head? ≠ some (ParserToken.keyword .BLOCK_END))
    (hh3 : ∀ c, line.head? ≠ some (ParserToken.pragma c)) :
    buildLoop m cur stack ln (line :: rest) =
      buildLoop (translateLineTokens (internLiterals m line) line).1
        (cur ++ [.undefined (translateLineTokens (internLiterals m line) line).2 (ln + 1)])
        stack (ln + 1) rest := by
  cases hhead : line.head? with
  | none =>
      cases line with
      | nil => simp at hemp
      | cons t ts => simp at hhead
  | some t =>
      cases t with
      | pragma c => exact absurd hhead (hh3 c)
      | keyword k =>
          have hk1 : k ≠ .BLOCK_BEGIN := by rintro rfl; exact hh1 hhead
          have hk2 : k ≠ .BLOCK_END := by rintro rfl; exact hh2 hhead
          simp [buildLoop, hemp, hhead, hk1, hk2]
      | vartype d => simp [buildLoop, hemp, hhead]
      | operator op => simp [buildLoop, hemp, hhead]
      | label n => simp [buildLoop, hemp, hhead]
      | constant v => simp [buildLoop, hemp, hhead]
      | stringLiteral s => simp [buildLoop, hemp, hhead]
      | identifier n => simp [buildLoop, hemp, hhead]

theorem buildLoop_cons_cases (m : ModuleState) (cur : List Node)
    (stack : List (List Node × Nat)) (ln : Nat) (line : List ParserToken)
    (rest : List (List ParserToken)) :
    (∃ e, buildLoop m cur stack ln (line :: rest) = .error e) ∨
    (∃ m2 cur2 stack2, buildLoop m cur stack ln (line :: rest) =
        buildLoop m2 cur2 stack2 (ln + 1) rest ∧
      (∀ x, containsHash m x → containsHash m2 x) ∧
      (∀ s, ParserToken.stringLiteral s ∈ line → containsHash m2 (getMurmur2_64 s)) ∧
      ((m.stringLiterals.map Prod.fst).Nodup → (m2.stringLiterals.map Prod.fst).Nodup)) := by
  by_cases hemp : line.isEmpty
  · refine Or.inr ⟨m, cur, stack, ?_, fun x h => h, ?_, fun h => h⟩
    · simp [buildLoop, hemp]
    · intro s hs
      rw [List.isEmpty_iff] at hemp
      subst hemp
      simp at hs
  · rw [Bool.not_eq_true] at hemp
    by_cases hh1 : line.head? = some (ParserToken.keyword .BLOCK_BEGIN)
    · by_cases hlen : line.length = 1
      · refine Or.inr ⟨internLiterals m line, [], (cur, ln + 1) :: stack, ?_,
          internLiterals_mono line m, fun s hs => internLiterals_contains line m s hs,
          internLiterals_nodup line m⟩
        simp [buildLoop, hemp, hh1, hlen]
      · exact Or.inl ⟨⟨"Curly brace must use its own line", ln + 1⟩,
          by simp [buildLoop, hemp, hh1, hlen]⟩
    · by_cases hh2 : line.head? = some (ParserToken.keyword .BLOCK_END)
      · by_cases hlen : line.length = 1
        · cases stack with
          | nil =>
              exact Or.inl ⟨⟨"Closed too many blocks", ln + 1⟩,
                by simp [buildLoop, hemp, hh1, hh2, hlen]⟩
          | cons top stack' =>
              obtain ⟨parent, bln⟩ := top
              refine Or.inr ⟨internLiterals m line, parent ++ [.block cur bln], stack', ?_,
                internLiterals_mono line m, fun s hs => internLiterals_contains line m s hs,
                internLiterals_nodup line m⟩
              simp [buildLoop, hemp, hh1, hh2, hlen]
        · exact Or.inl ⟨⟨"Curly brace must use its own line", ln + 1⟩,
            by simp [buildLoop, hemp, hh1, hh2, hlen]⟩
      · by_cases hh3 : ∃ c, line.head? = some (ParserToken.pragma c)
        · obtain ⟨c, hc⟩ := hh3
          refine Or.inr ⟨internLiterals m line, cur ++ [.pragma c (ln + 1)], stack, ?_,
            internLiterals_mono line m, fun s hs => internLiterals_contains line m s hs,
            internLiterals_nodup line m⟩
          simp [buildLoop, hemp, hh1, hh2, hc]
        · push_neg at hh3
          refine Or.inr ⟨(translateLineTokens (internLiterals m line) line).1,
            cur ++ [.undefined (translateLineTokens (internLiterals m line) line).2 (ln + 1)],
            stack, buildLoop_cons_undef m cur stack ln line rest hemp hh1 hh2 hh3, ?_, ?_, ?_⟩
          · intro x hx
            exact translateLineTokens_mono line _ x (internLiterals_mono line m x hx)
          · intro s hs
            exact translateLineTokens_mono line _ _ (internLiterals_contains line m s hs)
          · intro hn
            exact translateLineTokens_nodup line _ (internLiterals_nodup line m hn)

theorem buildLoop_strings :
    ∀ (lines : List (List ParserToken)) (m : ModuleState) (cur : List Node)
      (stack : List (List Node × Nat)) (ln : Nat) (m' : ModuleState) (res : List Node),
      buildLoop m cur stack ln lines = .ok (m', res) →
      (∀ x, containsHash m x → containsHash m' x) ∧
      (∀ line ∈ lines, ∀ s, ParserToken.stringLiteral s ∈ line →
          containsHash m' (getMurmur2_64 s)) ∧
      ((m.stringLiterals.map Prod.fst).Nodup → (m'.stringLiterals.map Prod.fst).Nodup) := by
  intro lines
  induction lines with
  | nil =>
      intro m cur stack ln m' res h
      cases stack with
      | nil =>
          simp [buildLoop] at h
          obtain ⟨hm, _⟩ := h
          subst hm
          exact ⟨fun x hx => hx, by intro l hl; simp at hl, fun hn => hn⟩
      | cons top stack' => simp [buildLoop] at h
  | cons line rest ih =>
      intro m cur stack ln m' res h
      rcases buildLoop_cons_cases m cur stack ln line rest with ⟨e, he⟩ | hstep
      · rw [he] at h
        cases h
      · obtain ⟨m2, cur2, stack2, heq, hmono, hlit, hnodup⟩ := hstep
        rw [heq] at h
        obtain ⟨i1, i2, i3⟩ := ih m2 cur2 stack2 (ln + 1) m' res h
        refine ⟨fun x hx => i1 x (hmono x hx), ?_, fun hn => i3 (hnodup hn)⟩
        intro l hl s hs
        rcases List.mem_cons.mp hl with heq | hmem
        · subst heq
          exact i1 _ (hlit s hs)
        · exact i2 l hmem s hs

/-- C7: on a successful node-building run, every string literal occurring in any line
is interned into the module string table under its 64-bit hash; the compiler token
translation of every line replaces each string literal by a Constant token carrying
the stored string's hash (and drops pragma payloads); and interning keeps the table
deduplicated by hash. -/
theorem C7_string_literal_interning (m : ModuleState) (lines : List (List ParserToken))
    (m' : ModuleState) (res : List Node)
    (hrun : buildNodesFromCodeLines m lines = .ok (m', res)) :
    (∀ line ∈ lines, ∀ s, ParserToken.stringLiteral s ∈ line →
        containsHash m' (getMurmur2_64 s)) ∧
    (∀ (m0 : ModuleState) (line : List ParserToken),
        (translateLineTokens m0 line).2 = line.filterMap expectedCompilerToken) ∧
    ((m.stringLiterals.map Prod.fst).Nodup → (m'.stringLiterals.map Prod.fst).Nodup) := by
  obtain ⟨i1, i2, i3⟩ := buildLoop_strings lines m [] [] 0 m' res hrun
  exact ⟨i2, fun m0 line => translateLineTokens_snd line m0, i3⟩

/-- C7 witness: compiling the single line consisting of the string literal "hi"
interns the literal under its hash. -/
theorem C7_string_literal_interning_witness :
    ∃ e ∈ (⟨[(getMurmur2_64 "hi", "hi")], [], [], []⟩ : ModuleState).stringLiterals,
      e.1 = getMurmur2_64 "hi" := by
  have h := C7_string_literal_interning emptyModule [[ParserToken.stringLiteral "hi"]]
    ⟨[(getMurmur2_64 "hi", "hi")], [], [], []⟩
    [Node.undefined [Token.constant (getMurmur2_64 "hi")] 1] rfl
  exact h.1 [ParserToken.stringLiteral "hi"] (by simp) "hi" (by simp)

/-- Modelled from the spec: the file system behind rmx loadFile and listFilesByMask
(the rmx library is not under src/): a finite map from full path to the file's lines
(line splitting of the raw content is not re-modelled). -/
structure ScriptFS where
  files : List (String × List String)
deriving DecidableEq, Repr

/-- Modelled from the spec: String::loadFile, returning the lines of the file at the
given full path, or none when loading fails. -/
def lookupFile (fs : ScriptFS) (path : String) : Option (List String) :=
  (fs.files.find? (fun e => e.1 = path)).map (fun e => e.2)

/-- Character-list test of whether one string starts with another (string operations
are modelled on the character list so that they compute by reduction). -/
def strStartsWith (s p : String) : Bool :=
  decide (s.toList.take p.toList.length = p.toList)

/-- Character-list test of whether one string ends with another. -/
def strEndsWith (s p : String) : Bool :=
  decide (s.toList.reverse.take p.toList.length = p.toList.reverse)

/-- Modelled from the spec: FileSystem listFilesByMask over the mask
basepath + "*.lemon": the file names (path with the base prefix removed) of all files
under the base path ending in ".lemon". -/
def wildcardEntries (fs : ScriptFS) (basepath : String) : List String :=
  (fs.files.filter (fun e => strStartsWith e.1 basepath && strEndsWith e.1 ".lemon")).map
    (fun e => (⟨e.1.toList.drop basepath.toList.length⟩ : String))

/-- State threaded through script loading: the flattened output lines, the error
message list (Compiler::mErrors) and the line number translation intervals. -/
structure LoaderState where
  outLines : List String
  errors : List String
  intervals : List Interval
deriving DecidableEq, Repr

/-- Position of the last forward slash in a character list, if any. -/
def lastIdxOfSlash : List Char → Option Nat
  | [] => none
  | c :: rest =>
      match lastIdxOfSlash rest with
      | some i => some (i + 1)
      | none => if c = '/' then some 0 else none

/-- Split of an include path into base path (ending in the slash) and file name
(Compiler.cpp lines 256-264): performed only when the last slash sits at a positive
position. -/
def splitIncludePath (s : String) : String × String :=
  match lastIdxOfSlash s.toList with
  | some p =>
      if 0 < p then (⟨s.toList.take (p + 1)⟩, ⟨s.toList.drop (p + 1)⟩) else ("", s)
  | none => ("", s)

/-- Replacement of backslashes by forward slashes (Compiler.cpp line 254). -/
def replaceBackslashes (s : String) : String :=
  ⟨s.toList.map (fun c => if c = '\\' then '/' else c)⟩

/-- Error message of Compiler.cpp line 193 for the include recursion depth ceiling. -/
def recursionDepthError (basepath filename : String) : String :=
  "Unusually high recursion depth in lemon script includes while loading script file \x27" ++
    filename ++ "\x27 at \x27" ++ basepath ++
    "\x27 (possibly some kind of cycle in the includes)"

/-- Error message of Compiler.cpp line 206 for a script file that fails to load. -/
def loadFileError (basepath filename : String) : String :=
  "Failed to load script file \x27" ++ filename ++ "\x27 at \x27" ++ basepath ++ "\x27"

/-- Include target of an include line (Compiler.cpp lines 250-264): the text after
"include " up to the first space, backslashes replaced, split into base path and file
name. -/
def includeTarget (line : String) : String × String :=
  splitIncludePath
    (replaceBackslashes ⟨(line.toList.drop 8).takeWhile (fun c => c ≠ ' ')⟩)

/-- Early-out sequencing of the loader: continue with the state of a successful step,
propagate a failed step unchanged (the pattern of the early returns on lines 275 and
281 of Compiler.cpp). -/
def andThen (result : Bool × LoaderState) (k : LoaderState → Bool × LoaderState) :
    Bool × LoaderState :=
  if result.1 then k result.2 else result

/-- Line number translation update after an include returns to the including file
(Compiler.cpp lines 284-287). -/
def afterIncludeState (st : LoaderState) (filename : String) (fileLineIndex : Nat) :
    LoaderState :=
  { st with intervals :=
      pushInterval st.intervals (st.outLines.length + 1) filename fileLineIndex }

/-- Wildcard include loop of Compiler.cpp lines 269-276: load every matching file with
the given loader, stopping at the first failure. -/
def processWildcard (load : String → LoaderState → Bool × LoaderState)
    (st : LoaderState) : List String → Bool × LoaderState
  | [] => (true, st)
  | name :: rest =>
      andThen (load name st) (fun stLoaded => processWildcard load stLoaded rest)

/-- Output-building loop of Compiler::loadScriptInternal (Compiler.cpp lines 243-293):
resolve include lines (single target or wildcard) through the given loader, push the
line number translation when returning to this file, and emit all other lines. -/
def processFileLines (load : String → String → LoaderState → Bool × LoaderState)
    (fs : ScriptFS) (basepath filename : String) :
    List String → Nat → LoaderState → Bool × LoaderState
  | [], _, st => (true, st)
  | line :: rest, fileLineIndex, st =>
      if strStartsWith line "include " then
        andThen
          (if (includeTarget line).2 = "?" then
            processWildcard (fun nm st' => load (basepath ++ (includeTarget line).1) nm st')
              st (wildcardEntries fs (basepath ++ (includeTarget line).1))
          else
            load (basepath ++ (includeTarget line).1) ((includeTarget line).2 ++ ".lemon") st)
          (fun stLoaded =>
            processFileLines load fs basepath filename rest (fileLineIndex + 1)
              (afterIncludeState stLoaded filename fileLineIndex))
      else
        processFileLines load fs basepath filename rest (fileLineIndex + 1)
          { st with outLines := st.outLines ++ [line] }

/-- Compiler::loadScriptInternal (Compiler.cpp lines 186-296) on the remaining
inclusion depth budget: the source increments its inclusionDepth parameter and fails
with the recursion diagnostic when the result reaches the fixed ceiling of 50, so a
call at depth d has 49 - d nested includes left; the budget counts that value down
structurally, nested includes consuming exactly one unit each. With a budget left, the
file is loaded, the line number translation is recorded, and the file's lines are
processed with the loader of the decremented budget (the preprocessor pass, not under
src/, is modelled as the identity; the ScriptFile registry is not modelled as nothing
reads it). -/
def loadScriptRemaining (fs : ScriptFS) : Nat → String → String → LoaderState →
    Bool × LoaderState
  | 0, basepath, filename, st =>
      (false, { st with errors := st.errors ++ [recursionDepthError basepath filename] })
  | remaining + 1, basepath, filename, st =>
      match lookupFile fs (basepath ++ filename) with
      | none =>
          (false, { st with errors := st.errors ++ [loadFileError basepath filename] })
      | some fileLines =>
          processFileLines (loadScriptRemaining fs remaining) fs basepath filename
            fileLines 0
            { st with
              intervals := pushInterval st.intervals (st.outLines.length + 1) filename 0 }

/-- Compiler::loadScriptInternal with the interface of the source: the inclusion depth
parameter, increasing by one per nested include, translated to the remaining budget
49 - inclusionDepth (zero exactly when the incremented depth reaches the ceiling
of 50). -/
def loadScriptInternal (fs : ScriptFS) (basepath filename : String) (st : LoaderState)
    (inclusionDepth : Nat) : Bool × LoaderState :=
  loadScriptRemaining fs (49 - inclusionDepth) basepath filename st

/-- A file system with a single script file that includes itself: the include target
"a" resolves to "a.lemon" relative to the empty base path. -/
def cyclicIncludeFS : ScriptFS := ⟨[("a.lemon", ["include a"])]⟩

theorem loadScriptInternal_ceiling (fs : ScriptFS) (basepath filename : String)
    (st : LoaderState) (d : Nat) (hd : 49 ≤ d) :
    loadScriptInternal fs basepath filename st d =
      (false, { st with errors := st.errors ++ [recursionDepthError basepath filename] }) := by
  unfold loadScriptInternal
  rw [show 49 - d = 0 from by omega]
  rfl

theorem cyclic_include_fails :
    ∀ (r : Nat) (st : LoaderState),
      (loadScriptRemaining cyclicIncludeFS r "" "a.lemon" st).1 = false ∧
      (loadScriptRemaining cyclicIncludeFS r "" "a.lemon" st).2.errors =
        st.errors ++ [recursionDepthError "" "a.lemon"] := by
  intro r
  induction r with
  | zero => intro st; exact ⟨rfl, rfl⟩
  | succ r ih =>
      intro st
      have hlook : lookupFile cyclicIncludeFS ("" ++ "a.lemon") = some ["include a"] := rfl
      have hinc : strStartsWith "include a" "include " = true := rfl
      have htgt : includeTarget "include a" = ("", "a") := rfl
      have hb : (("" : String) ++ ("" : String)) = "" := rfl
      have hl : (("a" : String) ++ ".lemon") = "a.lemon" := rfl
      have hstep : loadScriptRemaining cyclicIncludeFS (r + 1) "" "a.lemon" st =
          andThen (loadScriptRemaining cyclicIncludeFS r "" "a.lemon"
              ({ st with intervals :=
                  pushInterval st.intervals (st.outLines.length + 1) "a.lemon" 0 }))
            (fun stLoaded =>
              processFileLines (loadScriptRemaining cyclicIncludeFS r) cyclicIncludeFS
                "" "a.lemon" [] 1 (afterIncludeState stLoaded "a.lemon" 0)) := by
        conv_lhs => rw [loadScriptRemaining]
        simp only [hlook, processFileLines, hinc, if_true, htgt, hb, hl]
        rw [if_neg (by decide : ¬ ((("", "a") : String × String).2 = "?"))]
      obtain ⟨h1, h2⟩ := ih { st with intervals := pushInterval st.intervals (st.outLines.length + 1) "a.lemon" 0 }
      rw [hstep]
      unfold andThen
      rw [h1]
      simp only [Bool.false_eq_true, if_false]
      exact ⟨h1, h2⟩

/-- C4: once the inclusion depth parameter (incremented by one for each nested
include) reaches the ceiling of 50, loadScriptInternal appends the recursion depth
diagnostic and returns false without recursing further; in particular a script file
that includes itself fails with exactly that diagnostic from any starting depth
instead of looping (the function is total by construction, the recursion being
bounded by the ceiling). -/
theorem C4_loadScriptInternal_depth_ceiling (fs : ScriptFS) (basepath filename : String)
    (st : LoaderState) (d : Nat) (hd : 49 ≤ d) :
    loadScriptInternal fs basepath filename st d =
      (false, { st with errors := st.errors ++ [recursionDepthError basepath filename] }) ∧
    (∀ (st' : LoaderState) (d' : Nat),
        (loadScriptInternal cyclicIncludeFS "" "a.lemon" st' d').1 = false ∧
        (loadScriptInternal cyclicIncludeFS "" "a.lemon" st' d').2.errors =
          st'.errors ++ [recursionDepthError "" "a.lemon"]) := by
  refine ⟨loadScriptInternal_ceiling fs basepath filename st d hd, ?_⟩
  intro st' d'
  exact cyclic_include_fails (49 - d') st'

/-- C4 witness: the ceiling theorem applied to the empty file system at depth 49, and
the self-including file at depth 0. -/
theorem C4_loadScriptInternal_depth_ceiling_witness :
    loadScriptInternal ⟨[]⟩ "base/" "file.lemon" ⟨[], [], []⟩ 49 =
      (false, { outLines := [], errors := [recursionDepthError "base/" "file.lemon"],
                intervals := [] }) ∧
    (loadScriptInternal cyclicIncludeFS "" "a.lemon" ⟨[], [], []⟩ 0).1 = false := by
  have h := C4_loadScriptInternal_depth_ceiling ⟨[]⟩ "base/" "file.lemon" ⟨[], [], []⟩ 49
    (by decide)
  exact ⟨h.1, (h.2 ⟨[], [], []⟩ 0).1⟩

/-- Modelled from the spec: one entry of the scope stack (ScopeContext lives in
Compiler.h, which is not under src/): the number of local variables to fall back to at
scope end, and the optional number of still-to-be-processed nodes after which the
scope ends on its own (used by for-loops through beginScope(2)). -/
structure ScopeEntry where
  savedCount : Nat
  nodesRemaining : Option Nat
deriving DecidableEq, Repr

/-- Modelled from the spec: the scope context threaded through statement processing:
the current local variables and the stack of open scopes. -/
structure ScopeContext where
  mLocalVariables : List LocalVariable
  mScopeStack : List ScopeEntry
deriving DecidableEq, Repr

/-- Opening of a lexical scope, optionally auto-closing after a number of processed
nodes. -/
def beginScope (sc : ScopeContext) (lifetime : Option Nat) : ScopeContext :=
  { sc with mScopeStack := ⟨sc.mLocalVariables.length, lifetime⟩ :: sc.mScopeStack }

/-- Closing of the innermost scope: local variables declared inside it disappear. -/
def endScope (sc : ScopeContext) : ScopeContext :=
  match sc.mScopeStack with
  | [] => sc
  | e :: rest => ⟨sc.mLocalVariables.take e.savedCount, rest⟩

/-- Per-node countdown of auto-closing scopes (ScopeContext::onNodeProcessed). -/
def onNodeProcessed (sc : ScopeContext) : ScopeContext :=
  match sc.mScopeStack with
  | ⟨c, some 1⟩ :: rest => ⟨sc.mLocalVariables.take c, rest⟩
  | ⟨c, some (k + 2)⟩ :: rest => ⟨sc.mLocalVariables, ⟨c, some (k + 1)⟩ :: rest⟩
  | _ => sc

/-- Modelled from the spec: resolution of one atomic token by TokenProcessing
(TokenProcessing.cpp is not under src/): constants already are statements; a bare
identifier resolves against the scope's local variables and then the global
variables, an unresolvable identifier being a fatal error (spec section 4.5 pass 8);
every other token is left in place. -/
def resolveAtom (globals : List GlobalVariable) (sc : ScopeContext) (ln : Nat)
    (t : Token) : Except CompileError Token :=
  match t with
  | .identifier n =>
      if (sc.mLocalVariables.find? (fun v => v.name = n)).isSome then .ok (.variableRef n)
      else if (globals.find? (fun g => g.name = n)).isSome then .ok (.variableRef n)
      else .error ⟨"Unable to resolve identifier", ln⟩
  | t => .ok t

/-- Modelled from the spec: the parenthesis pass of TokenProcessing (spec section 4.5
pass 2): isolate parenthesized sub-lists recursively, each of which must resolve to a
single statement, and resolve atoms in place; returns the processed items of the
current nesting level and the remainder starting at the enclosing closing
parenthesis. The fuel argument only bounds the recursion and is chosen large enough
by processTokens. -/
def processItems (globals : List GlobalVariable) (sc : ScopeContext) (ln : Nat) :
    Nat → List Token → Except CompileError (List Token × List Token)
  | 0, _ => .error ⟨"Too deeply nested parentheses", ln⟩
  | _ + 1, [] => .ok ([], [])
  | _ + 1, .operator .PARENTHESIS_RIGHT :: rest =>
      .ok ([], .operator .PARENTHESIS_RIGHT :: rest)
  | fuel + 1, .operator .PARENTHESIS_LEFT :: rest => do
      let inner ← processItems globals sc ln fuel rest
      match inner.2 with
      | .operator .PARENTHESIS_RIGHT :: rem =>
          match inner.1 with
          | [single] =>
              if single.isStatement then do
                let next ← processItems globals sc ln fuel rem
                .ok (single :: next.1, next.2)
              else .error ⟨"Parenthesis content is not a statement", ln⟩
          | _ => .error ⟨"Parenthesis content is not a single statement", ln⟩
      | _ => .error ⟨"Missing closing parenthesis", ln⟩
  | fuel + 1, t :: rest => do
      let t' ← resolveAtom globals sc ln t
      let next ← processItems globals sc ln fuel rest
      .ok (t' :: next.1, next.2)

/-- Modelled from the spec: TokenProcessing::processTokens (TokenProcessing.cpp is not
under src/), restricted to the rewrite passes the claims need: a leading keyword is
kept in place (the callers inspect the tokens after it), parenthesized sub-lists are
isolated and must each resolve to a single statement (pass 2), and identifiers are
resolved against locals and globals (pass 8); the remaining passes (defines, commas,
variable definitions, calls, memory accesses, casts, operators, typing) are not
modelled, so the scope context is read but never extended. -/
def processTokens (globals : List GlobalVariable) (sc : ScopeContext)
    (tokens : List Token) (ln : Nat) : Except CompileError (List Token) :=
  match tokens with
  | .keyword k :: rest => do
      let p ← processItems globals sc ln (rest.length + 1) rest
      match p.2 with
      | [] => .ok (.keyword k :: p.1)
      | _ => .error ⟨"Unmatched closing parenthesis", ln⟩
  | _ => do
      let p ← processItems globals sc ln (tokens.length + 1) tokens
      match p.2 with
      | [] => .ok p.1
      | _ => .error ⟨"Unmatched closing parenthesis", ln⟩

/-- Scan of Compiler.cpp lines 950-960: the positions of the semicolon operators in a
token segment, with the absolute index of the segment's first token given (the source
records only the first two positions, but fails unless there are exactly two, so
recording all of them is equivalent). -/
def scanSemicolons (i : Nat) : List Token → List Nat
  | [] => []
  | t :: rest =>
      if isOperator t .SEMICOLON_SEPARATOR then i :: scanSemicolons (i + 1) rest
      else scanSemicolons (i + 1) rest

/-- Processing of one clause of a for-loop header (Compiler.cpp lines 966-986): the
clause spans the token indices strictly between a and b; an empty clause yields no
statement, a non-empty clause is token-processed and must evaluate to exactly one
statement token. -/
def processForClause (globals : List GlobalVariable) (sc : ScopeContext)
    (tokens : List Token) (ln : Nat) (a b : Nat) : Except CompileError (Option Token) :=
  if b - a - 1 = 0 then .ok none
  else do
    let ts ← processTokens globals sc ((tokens.drop (a + 1)).take (b - a - 1)) ln
    match ts with
    | [single] =>
        if single.isStatement then .ok (some single)
        else .error ⟨"Tokens in \x27for\x27 loop header do not evaluate to a statement", ln⟩
    | _ =>
        .error ⟨"Tokens in \x27for\x27 loop header do not evaluate to a single statement",
          ln⟩

/-- Default node used by checked list indexing (never read on the paths the source
guarantees in bounds). -/
def defaultNode : Node := .block [] 0

/-- Compiler::processUndefinedNode (Compiler.cpp lines 830-1025): keyword dispatch of
one undefined node's token list, producing the classified node (or none for an
unhandled keyword) and the possibly extended scope context. -/
def processUndefinedNode (globals : List GlobalVariable) (sc : ScopeContext)
    (tokens : List Token) (ln : Nat) : Except CompileError (Option Node × ScopeContext) :=
  match tokens with
  | [] => .ok (none, sc)
  | .keyword kw :: _ =>
      match kw with
      | .RETURN => do
          let ts ← processTokens globals sc tokens ln
          match ts with
          | [_] => .ok (some (.returnStmt none ln), sc)
          | [_, t] =>
              if t.isStatement then .ok (some (.returnStmt (some t) ln), sc)
              else .error ⟨"Token after \x27return\x27 must be a statement", ln⟩
          | _ => .error ⟨"Return can have up to one statement", ln⟩
      | .CALL | .JUMP => do
          let ts ← processTokens globals sc tokens ln
          match ts with
          | [_, t] =>
              if t.isStatement then
                .ok (some (.externalNode t (kw = .CALL) ln), sc)
              else
                match t with
                | .label name =>
                    if kw = .JUMP then .ok (some (.jumpNode name ln), sc)
                    else .error ⟨"Label is not allowed after \x27call\x27 keyword", ln⟩
                | _ =>
                    .error ⟨"Token after \x27call\x27 and \x27jump\x27 must be a statement or a label",
                      ln⟩
          | _ => .error ⟨"\x27call\x27 and \x27jump\x27 need an additional token after them", ln⟩
      | .BREAK =>
          if tokens.length = 1 then .ok (some (.breakNode ln), sc)
          else .error ⟨"There must be no token after \x27break\x27 keyword", ln⟩
      | .CONTINUE =>
          if tokens.length = 1 then .ok (some (.continueNode ln), sc)
          else .error ⟨"There must be no token after \x27continue\x27 keyword", ln⟩
      | .IF => do
          let ts ← processTokens globals sc tokens ln
          match ts with
          | [_, t] =>
              if t.isStatement then .ok (some (.ifStatement t none none ln), sc)
              else .error ⟨"Expected statement after \x27if\x27 keyword", ln⟩
          | _ => .error ⟨"Expected single statement after \x27if\x27 keyword", ln⟩
      | .ELSE => .ok (some (.elseStatement ln), sc)
      | .WHILE => do
          let ts ← processTokens globals sc tokens ln
          match ts with
          | [_, t] =>
              if t.isStatement then .ok (some (.whileStatement t none ln), sc)
              else .error ⟨"Expected statement after \x27while\x27 keyword", ln⟩
          | _ => .error ⟨"Expected single statement after \x27while\x27 keyword", ln⟩
      | .FOR =>
          if ¬ (3 ≤ tokens.length) then
            .error ⟨"Not enough tokens found after \x27for\x27 keyword", ln⟩
          else if ¬ (isOperator (tokens.getD 1 (.constant 0)) .PARENTHESIS_LEFT = true) then
            .error ⟨"Expected opening parenthesis after \x27for\x27 keyword", ln⟩
          else if ¬ (isOperator (tokens.getLastD (.constant 0)) .PARENTHESIS_RIGHT = true) then
            .error ⟨"Expected closing parenthesis as last token after \x27for\x27 keyword", ln⟩
          else
            let endIndex := tokens.length - 1
            let semis := scanSemicolons 2 ((tokens.drop 2).take (endIndex - 2))
            if semis.length = 2 then do
              let sc2 := beginScope sc (some 2)
              let s0 ← processForClause globals sc2 tokens ln 1 (semis.getD 0 0)
              let s1 ← processForClause globals sc2 tokens ln (semis.getD 0 0) (semis.getD 1 0)
              let s2 ← processForClause globals sc2 tokens ln (semis.getD 1 0) endIndex
              .ok (some (.forStatement s0 s1 s2 none ln), sc2)
            else .error ⟨"Expected exactly two semicolons in \x27for\x27 loop header", ln⟩
      | _ => .ok (none, sc)
  | .label name :: _ =>
      if tokens.length = 2 ∧ isOperator (tokens.getD 1 (.constant 0)) .COLON = true then
        .ok (some (.labelNode name ln), sc)
      else if tokens.length = 2 then
        .error ⟨"Expected a colon operator after label", ln⟩
      else .error ⟨"Expected only colon after label", ln⟩
  | _ => do
      let ts ← processTokens globals sc tokens ln
      match ts with
      | [t] =>
          if t.isStatement then .ok (some (.statement t ln), sc)
          else .error ⟨"Statement is no statement?", ln⟩
      | _ => .error ⟨"Statement contains more than a single token tree root", ln⟩

/-- Test for an ElseStatementNode. -/
def Node.isElse : Node → Bool
  | .elseStatement _ => true
  | _ => false

/-- NodeList::erase(index, count): removal of count nodes starting at the index. -/
def eraseCount (l : List Node) (i cnt : Nat) : List Node :=
  l.take i ++ l.drop (i + cnt)

theorem eraseCount_length_le (l : List Node) (i cnt : Nat) :
    (eraseCount l i cnt).length ≤ l.length := by
  simp [eraseCount]
  omega

theorem set_erase_le (l : List Node) (i : Nat) (n : Node) (cnt : Nat) :
    (eraseCount (l.set i n) (i + 1) cnt).length ≤ l.length := by
  have h := eraseCount_length_le (l.set i n) (i + 1) cnt
  simpa [List.length_set] using h

/-- Line number of the last node of a list (mNodes.back() of the source, 0 when the
list is empty). -/
def lastNodeLine (nodes : List Node) : Nat :=
  match nodes.getLast? with
  | some n => n.getLineNumber
  | none => 0

/-- Compiler::formSingleStatement (Compiler.cpp lines 670-743): merge the node at the
index with the following nodes it needs: an if-statement consumes the next node as
then-content and, when an else marker follows, the node after the marker as
else-content (both through recursive formation); while and for consume one following
node; a block needs nothing; an else marker in this position is an error. The result
never grows the node list, which the subtype records for termination. -/
def formSingleStatement (nodes : List Node) (index : Nat) :
    Except CompileError { l : List Node // l.length ≤ nodes.length } :=
  if hidx : index < nodes.length then
    match nodes.getD index defaultNode with
    | .ifStatement cond _ _ ln => do
        let sub ← formSingleStatement nodes (index + 1)
        let contentIf := sub.val.getD (index + 1) defaultNode
        if index + 2 < sub.val.length ∧ (sub.val.getD (index + 2) defaultNode).isElse then do
          let sub2 ← formSingleStatement sub.val (index + 3)
          let contentElse := sub2.val.getD (index + 3) defaultNode
          let replaced := sub2.val.set index
            (.ifStatement cond (some contentIf) (some contentElse) ln)
          .ok ⟨eraseCount replaced (index + 1) 3,
            le_trans (set_erase_le sub2.val index _ 3)
              (le_trans sub2.property sub.property)⟩
        else
          let replaced := sub.val.set index (.ifStatement cond (some contentIf) none ln)
          .ok ⟨eraseCount replaced (index + 1) 1,
            le_trans (set_erase_le sub.val index _ 1) sub.property⟩
    | .elseStatement ln => .error ⟨"Else in wrong location", ln⟩
    | .whileStatement cond _ ln => do
        let sub ← formSingleStatement nodes (index + 1)
        let content := sub.val.getD (index + 1) defaultNode
        let replaced := sub.val.set index (.whileStatement cond (some content) ln)
        .ok ⟨eraseCount replaced (index + 1) 1,
          le_trans (set_erase_le sub.val index _ 1) sub.property⟩
    | .forStatement inS cndS itS _ ln => do
        let sub ← formSingleStatement nodes (index + 1)
        let content := sub.val.getD (index + 1) defaultNode
        let replaced := sub.val.set index (.forStatement inS cndS itS (some content) ln)
        .ok ⟨eraseCount replaced (index + 1) 1,
          le_trans (set_erase_le sub.val index _ 1) sub.property⟩
    | _ => .ok ⟨nodes, le_refl _⟩
  else .error ⟨"Expected another node to form statement of", lastNodeLine nodes⟩
termination_by nodes.length - index
decreasing_by
  all_goals omega

/-- Merge loop of Compiler::processUndefinedNodesInBlock (Compiler.cpp lines
798-824): walk the node list, forming single statements for if, while and for nodes
and rejecting a leftover else marker. -/
def mergeStatementsLoop (nodes : List Node) (i : Nat) : Except CompileError (List Node) :=
  if hi : i < nodes.length then
    match nodes.getD i defaultNode with
    | .ifStatement _ _ _ _ => do
        let sub ← formSingleStatement nodes i
        mergeStatementsLoop sub.val (i + 1)
    | .whileStatement _ _ _ => do
        let sub ← formSingleStatement nodes i
        mergeStatementsLoop sub.val (i + 1)
    | .forStatement _ _ _ _ _ => do
        let sub ← formSingleStatement nodes i
        mergeStatementsLoop sub.val (i + 1)
    | .elseStatement ln => .error ⟨"Else in wrong location", ln⟩
    | _ => mergeStatementsLoop nodes (i + 1)
  else .ok nodes
termination_by nodes.length - i
decreasing_by
  · have := sub.property
    omega
  · have := sub.property
    omega
  · have := sub.property
    omega
  · omega

/-- Handling of one undefined node in the first loop of
processUndefinedNodesInBlock (Compiler.cpp lines 761-788), including the special case
after an else marker: the remaining tokens of the else line are classified again and
the new node is inserted immediately after the else node (the loop then visits the
inserted, already classified node, which only counts as one more processed node for
the scope context). Returns the nodes replacing the undefined node and the scope
context after those loop iterations. -/
def classifyUndefinedNode (globals : List GlobalVariable) (toks : List Token)
    (uln : Nat) (sc : ScopeContext) : Except CompileError (List Node × ScopeContext) := do
  let p ← processUndefinedNode globals sc toks uln
  match p.1 with
  | none => .ok ([.undefined toks uln], onNodeProcessed p.2)
  | some (.elseStatement _) =>
      let toks' := toks.drop 1
      if toks'.isEmpty then .ok ([.elseStatement uln], onNodeProcessed p.2)
      else do
        let q ← processUndefinedNode globals p.2 toks' uln
        match q.1 with
        | some newNode2 =>
            .ok ([.elseStatement uln, newNode2], onNodeProcessed (onNodeProcessed q.2))
        | none => .ok ([.elseStatement uln], onNodeProcessed q.2)
  | some newNode => .ok ([newNode], onNodeProcessed p.2)

mutual

/-- First loop of Compiler::processUndefinedNodesInBlock (Compiler.cpp lines
750-796): process nested blocks recursively, classify undefined nodes (with the else
special case), and notify the scope context once per visited node. -/
def processNodesLoop (globals : List GlobalVariable) :
    List Node → ScopeContext → Except CompileError (List Node × ScopeContext)
  | [], sc => .ok ([], sc)
  | node :: rest, sc =>
      match node with
      | .block children bln => do
          let p ← processNodesInBlock globals children sc
          let q ← processNodesLoop globals rest (onNodeProcessed p.2)
          .ok (.block p.1 bln :: q.1, q.2)
      | .undefined toks uln => do
          let p ← classifyUndefinedNode globals toks uln sc
          let q ← processNodesLoop globals rest p.2
          .ok (p.1 ++ q.1, q.2)
      | other => do
          let q ← processNodesLoop globals rest (onNodeProcessed sc)
          .ok (other :: q.1, q.2)
termination_by nodes _ => (sizeOf nodes, 0)

/-- Compiler::processUndefinedNodesInBlock (Compiler.cpp lines 745-828) on a block's
child list: open a scope, run the classification loop, merge the control flow
statements, and close the scope. -/
def processNodesInBlock (globals : List GlobalVariable) (nodes : List Node)
    (sc : ScopeContext) : Except CompileError (List Node × ScopeContext) := do
  let p ← processNodesLoop globals nodes (beginScope sc none)
  let merged ← mergeStatementsLoop p.1 0
  .ok (merged, endScope p.2)
termination_by (sizeOf nodes, 1)

end

theorem exceptBind_ok {α β : Type} (a : α) (f : α → Except CompileError β) :
    (Except.ok a >>= f) = f a := rfl

theorem endScope_beginScope (sc : ScopeContext) : endScope (beginScope sc none) = sc := by
  cases sc
  simp [beginScope, endScope]

/-- Token list of a line of the form `if (<constant>)`. -/
def ifLineTokens (c : Nat) : List Token :=
  [.keyword .IF, .operator .PARENTHESIS_LEFT, .constant c, .operator .PARENTHESIS_RIGHT]

/-- Token list of a line of the form `else if (<constant>)`. -/
def elseIfLineTokens (c : Nat) : List Token :=
  .keyword .ELSE :: ifLineTokens c

/-- The else part of an if/else-if chain as it arrives at statement processing:
`else if (c)` marker lines each followed by a block body, ending in a plain `else`
with its block body. -/
def elseChainNodes : List Nat → List Node
  | [] => [.undefined [.keyword .ELSE] 0, .block [] 0]
  | c :: cs => .undefined (elseIfLineTokens c) 0 :: .block [] 0 :: elseChainNodes cs

/-- A full if/else-if chain of undefined nodes: the if marker line, its block body,
and the else chain. -/
def chainNodes (c : Nat) (cs : List Nat) : List Node :=
  .undefined (ifLineTokens c) 0 :: .block [] 0 :: elseChainNodes cs

/-- The single node the chain must collapse to: an IfStatementNode whose else branch
is itself an IfStatementNode for each further else-if, ending in the block of the
final else. -/
def expectedElse : List Nat → Node
  | [] => .block [] 0
  | c :: cs => .ifStatement (.constant c) (some (.block [] 0)) (some (expectedElse cs)) 0

/-- The intermediate shape after the classification loop, before statement merging:
if markers, blocks and else markers in a flat sequence. -/
def midElse : List Nat → List Node
  | [] => [.elseStatement 0, .block [] 0]
  | c :: cs =>
      .elseStatement 0 :: .ifStatement (.constant c) none none 0 :: .block [] 0 ::
        midElse cs

theorem classify_ifLine (g : List GlobalVariable) (c : Nat) (sc : ScopeContext) :
    classifyUndefinedNode g (ifLineTokens c) 0 sc =
      .ok ([.ifStatement (.constant c) none none 0], onNodeProcessed sc) := rfl

theorem classify_elseIfLine (g : List GlobalVariable) (c : Nat) (sc : ScopeContext) :
    classifyUndefinedNode g (elseIfLineTokens c) 0 sc =
      .ok ([.elseStatement 0, .ifStatement (.constant c) none none 0],
        onNodeProcessed (onNodeProcessed sc)) := rfl

theorem classify_elseLine (g : List GlobalVariable) (sc : ScopeContext) :
    classifyUndefinedNode g [.keyword .ELSE] 0 sc =
      .ok ([.elseStatement 0], onNodeProcessed sc) := rfl

theorem processNodesInBlock_nil (g : List GlobalVariable) (sc : ScopeContext) :
    processNodesInBlock g [] sc = .ok ([], sc) := by
  rw [processNodesInBlock, processNodesLoop]
  simp only [exceptBind_ok]
  rw [mergeStatementsLoop]
  simp only [exceptBind_ok, endScope_beginScope]
  rfl

theorem processNodesLoop_emptyBlock (g : List GlobalVariable) (sc : ScopeContext)
    (rest : List Node) :
    processNodesLoop g (.block [] 0 :: rest) sc =
      (processNodesLoop g rest (onNodeProcessed sc) >>=
        fun q => .ok (.block [] 0 :: q.1, q.2)) := by
  rw [processNodesLoop, processNodesInBlock_nil]
  simp only [exceptBind_ok]

theorem processNodesLoop_elseChain (g : List GlobalVariable) :
    ∀ (cs : List Nat) (sc : ScopeContext), onNodeProcessed sc = sc →
      processNodesLoop g (elseChainNodes cs) sc = .ok (midElse cs, sc) := by
  intro cs
  induction cs with
  | nil =>
      intro sc hsc
      rw [elseChainNodes, processNodesLoop, classify_elseLine]
      simp only [exceptBind_ok, hsc]
      rw [processNodesLoop_emptyBlock, hsc, processNodesLoop]
      simp only [exceptBind_ok]
      rfl
  | cons c cs ih =>
      intro sc hsc
      rw [elseChainNodes, processNodesLoop, classify_elseIfLine]
      simp only [exceptBind_ok, hsc]
      rw [processNodesLoop_emptyBlock, hsc, ih sc hsc]
      simp only [exceptBind_ok]
      rfl

theorem processNodesLoop_chain (g : List GlobalVariable) (c : Nat) (cs : List Nat)
    (sc : ScopeContext) (hsc : onNodeProcessed sc = sc) :
    processNodesLoop g (chainNodes c cs) sc =
      .ok (.ifStatement (.constant c) none none 0 :: .block [] 0 :: midElse cs, sc) := by
  rw [chainNodes, processNodesLoop, classify_ifLine]
  simp only [exceptBind_ok, hsc]
  rw [processNodesLoop_emptyBlock, hsc, processNodesLoop_elseChain g cs sc hsc]
  simp only [exceptBind_ok]
  rfl

theorem getD_append_at {α : Type} (P t : List α) (d : α) (k : Nat) :
    (P ++ t).getD (P.length + k) d = t.getD k d := by
  rw [List.getD_append_right _ _ _ _ (by omega)]
  congr 1
  omega

theorem append_take_at {α : Type} :
    ∀ (P : List α) (t : List α) (k : Nat), (P ++ t).take (P.length + k) = P ++ t.take k := by
  intro P
  induction P with
  | nil => intro t k; simp
  | cons a P ih =>
      intro t k
      have : (a :: P).length + k = (P.length + k) + 1 := by simp; omega
      rw [this, List.cons_append, List.take_succ_cons, ih]
      rfl

theorem append_drop_at {α : Type} :
    ∀ (P : List α) (t : List α) (k : Nat), (P ++ t).drop (P.length + k) = t.drop k := by
  intro P
  induction P with
  | nil => intro t k; simp
  | cons a P ih =>
      intro t k
      have : (a :: P).length + k = (P.length + k) + 1 := by simp; omega
      rw [this, List.cons_append, List.drop_succ_cons, ih]

theorem append_set_at {α : Type} :
    ∀ (P : List α) (t : List α) (k : Nat) (y : α),
      (P ++ t).set (P.length + k) y = P ++ t.set k y := by
  intro P
  induction P with
  | nil => intro t k y; simp
  | cons a P ih =>
      intro t k y
      have : (a :: P).length + k = (P.length + k) + 1 := by simp; omega
      rw [this, List.cons_append, List.set_cons_succ, ih]
      rfl

theorem formSingleStatement_block (nodes : List Node) (index : Nat)
    (hidx : index < nodes.length) (bs : List Node) (bln : Nat)
    (hnode : nodes.getD index defaultNode = .block bs bln) :
    formSingleStatement nodes index = .ok ⟨nodes, le_refl _⟩ := by
  rw [formSingleStatement, dif_pos hidx]
  simp only [hnode]

theorem except_map_val_ok {E α : Type} {Q : α → Prop} (x : Except E { a // Q a }) (v : α)
    (hx : x.map Subtype.val = .ok v) : ∃ h : Q v, x = .ok ⟨v, h⟩ := by
  cases x with
  | error e => simp [Except.map] at hx
  | ok s =>
      obtain ⟨val, prop⟩ := s
      simp [Except.map] at hx
      subst hx
      exact ⟨prop, rfl⟩

theorem formSingleStatement_chain :
    ∀ (cs : List Nat) (P : List Node) (cond : Token),
      (formSingleStatement
          (P ++ .ifStatement cond none none 0 :: .block [] 0 :: midElse cs)
          P.length).map Subtype.val =
        .ok (P ++ [.ifStatement cond (some (.block [] 0)) (some (expectedElse cs)) 0]) := by
  intro cs
  induction cs with
  | nil =>
      intro P cond
      rw [midElse]
      set L : List Node := P ++ .ifStatement cond none none 0 :: .block [] 0 ::
        [Node.elseStatement 0, .block [] 0] with hL
      have hlen : L.length = P.length + 4 := by simp [hL]
      have h0 : L.getD P.length defaultNode = .ifStatement cond none none 0 := by
        have h := getD_append_at P (Node.ifStatement cond none none 0 :: .block [] 0 ::
          [Node.elseStatement 0, .block [] 0]) defaultNode 0
        rw [Nat.add_zero] at h
        exact h
      have h1 : L.getD (P.length + 1) defaultNode = .block [] 0 :=
        getD_append_at P _ defaultNode 1
      have h2 : L.getD (P.length + 2) defaultNode = .elseStatement 0 :=
        getD_append_at P _ defaultNode 2
      have h3 : L.getD (P.length + 3) defaultNode = .block [] 0 :=
        getD_append_at P _ defaultNode 3
      have hbody : formSingleStatement L (P.length + 1) = .ok ⟨L, le_refl _⟩ :=
        formSingleStatement_block L (P.length + 1) (by omega) [] 0 h1
      have hbody3 : formSingleStatement L (P.length + 3) = .ok ⟨L, le_refl _⟩ :=
        formSingleStatement_block L (P.length + 3) (by omega) [] 0 h3
      rw [formSingleStatement, dif_pos (by omega : P.length < L.length)]
      simp only [h0, hbody, exceptBind_ok, h1]
      rw [if_pos (by exact ⟨by omega, by rw [h2]; rfl⟩)]
      simp only [hbody3, exceptBind_ok, h3]
      have hset : L.set P.length
          (.ifStatement cond (some (.block [] 0)) (some (.block [] 0)) 0) =
          P ++ .ifStatement cond (some (.block [] 0)) (some (.block [] 0)) 0 ::
            .block [] 0 :: [Node.elseStatement 0, .block [] 0] := by
        have := append_set_at P (Node.ifStatement cond none none 0 :: .block [] 0 ::
          [Node.elseStatement 0, .block [] 0]) 0
          (Node.ifStatement cond (some (.block [] 0)) (some (.block [] 0)) 0)
        simpa [hL] using this
      rw [expectedElse]
      simp only [Except.map, hset, eraseCount]
      congr 1
      have htake := append_take_at P (Node.ifStatement cond (some (.block [] 0))
        (some (.block [] 0)) 0 :: .block [] 0 :: [Node.elseStatement 0, .block [] 0]) 1
      have hdrop := append_drop_at P (Node.ifStatement cond (some (.block [] 0))
        (some (.block [] 0)) 0 :: .block [] 0 :: [Node.elseStatement 0, .block [] 0]) 4
      rw [htake, hdrop]
      simp
  | cons c' cs' ih =>
      intro P cond
      rw [midElse]
      set ifn : Node := .ifStatement cond none none 0 with hifn
      set ifn2 : Node := .ifStatement (.constant c') none none 0 with hifn2
      set blk : Node := .block [] 0 with hblk
      set els : Node := .elseStatement 0 with hels
      set L : List Node := P ++ ifn :: blk :: els :: ifn2 :: blk :: midElse cs' with hL
      have hmidlen : 2 ≤ (midElse cs').length := by
        cases cs' <;> simp [midElse]
      have hlen : L.length = P.length + 5 + (midElse cs').length := by
        simp [hL]
        omega
      have h0 : L.getD P.length defaultNode = ifn := by
        have h := getD_append_at P (ifn :: blk :: els :: ifn2 :: blk :: midElse cs')
          defaultNode 0
        rw [Nat.add_zero] at h
        exact h
      have h1 : L.getD (P.length + 1) defaultNode = blk :=
        getD_append_at P _ defaultNode 1
      have h2 : L.getD (P.length + 2) defaultNode = els :=
        getD_append_at P _ defaultNode 2
      have hbody : formSingleStatement L (P.length + 1) = .ok ⟨L, le_refl _⟩ :=
        formSingleStatement_block L (P.length + 1) (by omega) [] 0 h1
      -- the recursive formation at the else content reachable through the induction
      -- hypothesis, with the prefix extended by the three consumed nodes
      have hassoc : L = (P ++ [ifn, blk, els]) ++ ifn2 :: blk :: midElse cs' := by
        simp [hL]
      have hlen3 : (P ++ [ifn, blk, els]).length = P.length + 3 := by simp
      have hih := ih (P ++ [ifn, blk, els]) (.constant c')
      rw [hlen3] at hih
      rw [← hassoc] at hih
      obtain ⟨hprop, hsub2⟩ := except_map_val_ok _ _ hih
      rw [formSingleStatement, dif_pos (by omega : P.length < L.length)]
      simp only [h0, hbody, exceptBind_ok, h1]
      rw [if_pos (by exact ⟨by omega, by rw [h2]; rfl⟩)]
      simp only [hsub2, exceptBind_ok]
      have hres : (P ++ [ifn, blk, els]) ++
          [Node.ifStatement (.constant c') (some blk) (some (expectedElse cs')) 0] =
          P ++ ifn :: blk :: els ::
            [Node.ifStatement (.constant c') (some blk) (some (expectedElse cs')) 0] := by
        simp
      have hget3 : (P ++ ifn :: blk :: els ::
          [Node.ifStatement (.constant c') (some blk) (some (expectedElse cs')) 0]).getD
          (P.length + 3) defaultNode =
          Node.ifStatement (.constant c') (some blk) (some (expectedElse cs')) 0 :=
        getD_append_at P _ defaultNode 3
      simp only [Except.map]
      congr 1
      rw [hres, hget3]
      set X : Node := Node.ifStatement (.constant c') (some blk) (some (expectedElse cs')) 0
        with hX
      set newIf : Node := Node.ifStatement cond (some blk) (some X) 0 with hNewIf
      have hset : (P ++ [ifn, blk, els, X]).set P.length newIf =
          P ++ [newIf, blk, els, X] := by
        have h := append_set_at P [ifn, blk, els, X] 0 newIf
        rw [Nat.add_zero] at h
        simpa using h
      rw [hset]
      have htake : (P ++ [newIf, blk, els, X]).take (P.length + 1) = P ++ [newIf] := by
        have h := append_take_at P [newIf, blk, els, X] 1
        simpa using h
      have hdrop : (P ++ [newIf, blk, els, X]).drop (P.length + 4) = [] := by
        have h := append_drop_at P [newIf, blk, els, X] 4
        simpa using h
      rw [eraseCount, htake, hdrop]
      rw [expectedElse]
      simp [hNewIf, hX]

/-- C3: a block holding an if marker node, its then body, else markers whose lines
continue with further ifs (each with its body), and a final else with its body,
classifies and merges into a single IfStatementNode whose else branch is itself an
IfStatementNode for every further else-if, and raises no parse error; the else
marker's remaining tokens are re-classified into the node inserted directly after the
else marker, which the merge loop then consumes. The scope context comes back
unchanged. Token processing of the conditions is modelled from the spec
(TokenProcessing.cpp is not under src/). -/
theorem C3_else_if_chaining (g : List GlobalVariable) (c : Nat) (cs : List Nat)
    (sc : ScopeContext) :
    processNodesInBlock g (chainNodes c cs) sc =
      .ok ([.ifStatement (.constant c) (some (.block [] 0)) (some (expectedElse cs)) 0],
        sc) := by
  rw [processNodesInBlock]
  rw [processNodesLoop_chain g c cs (beginScope sc none) rfl]
  simp only [exceptBind_ok]
  have hform := formSingleStatement_chain cs [] (.constant c)
  rw [List.nil_append, List.length_nil] at hform
  obtain ⟨hprop, hsub⟩ := except_map_val_ok _ _ hform
  rw [mergeStatementsLoop, dif_pos (by simp : 0 < (Node.ifStatement (.constant c) none
    none 0 :: .block [] 0 :: midElse cs).length)]
  simp only [show (Node.ifStatement (.constant c) none none 0 :: .block [] 0 ::
    midElse cs).getD 0 defaultNode = .ifStatement (.constant c) none none 0 from rfl]
  rw [hsub]
  simp only [exceptBind_ok]
  rw [mergeStatementsLoop, dif_neg (by simp)]
  simp only [exceptBind_ok, endScope_beginScope]
  simp

/-- Token list of a for-statement line: the for keyword and the parenthesized
header. -/
def forTokens (mid : List Token) : List Token :=
  .keyword .FOR :: .operator .PARENTHESIS_LEFT :: mid ++ [.operator .PARENTHESIS_RIGHT]

/-- Independent processing of one for-header clause as claim C5 states it: an empty
clause contributes no statement, a non-empty clause is token-processed and must
evaluate to exactly one statement token. -/
def clauseSpec (globals : List GlobalVariable) (sc : ScopeContext) (cl : List Token)
    (ln : Nat) : Except CompileError (Option Token) :=
  if cl.isEmpty then .ok none
  else do
    let ts ← processTokens globals sc cl ln
    match ts with
    | [single] =>
        if single.isStatement then .ok (some single)
        else .error ⟨"Tokens in \x27for\x27 loop header do not evaluate to a statement", ln⟩
    | _ =>
        .error ⟨"Tokens in \x27for\x27 loop header do not evaluate to a single statement",
          ln⟩

theorem scanSemicolons_length :
    ∀ (l : List Token) (i : Nat),
      (scanSemicolons i l).length =
        (l.filter (fun t => isOperator t .SEMICOLON_SEPARATOR)).length := by
  intro l
  induction l with
  | nil => intro i; rfl
  | cons t rest ih =>
      intro i
      rw [scanSemicolons, List.filter_cons]
      by_cases h : isOperator t .SEMICOLON_SEPARATOR = true
      · simp [h, ih]
      · simp [h, ih (i + 1)]

theorem scanSemicolons_append_nosemi :
    ∀ (l : List Token), (∀ t ∈ l, ¬ isOperator t .SEMICOLON_SEPARATOR = true) →
      ∀ (rest : List Token) (i : Nat),
        scanSemicolons i (l ++ rest) = scanSemicolons (i + l.length) rest := by
  intro l
  induction l with
  | nil => intro _ rest i; simp
  | cons t l' ih =>
      intro h rest i
      rw [List.cons_append, scanSemicolons,
        if_neg (h t (by simp)), ih (fun u hu => h u (by simp [hu])) rest (i + 1)]
      congr 1
      simp
      omega

theorem forTokens_length (mid : List Token) : (forTokens mid).length = mid.length + 3 := by
  simp [forTokens]

theorem forTokens_getLast (mid : List Token) :
    (forTokens mid).getLastD (.constant 0) = .operator .PARENTHESIS_RIGHT := by
  rw [show forTokens mid = (Token.keyword .FOR ::
    Token.operator .PARENTHESIS_LEFT :: mid) ++ [Token.operator .PARENTHESIS_RIGHT] from
    by simp [forTokens]]
  rw [List.getLastD_concat]

theorem processUndefinedNode_for (g : List GlobalVariable) (sc : ScopeContext) (ln : Nat)
    (mid : List Token) :
    processUndefinedNode g sc (forTokens mid) ln =
      (if (scanSemicolons 2 mid).length = 2 then do
        let s0 ← processForClause g (beginScope sc (some 2)) (forTokens mid) ln 1
          ((scanSemicolons 2 mid).getD 0 0)
        let s1 ← processForClause g (beginScope sc (some 2)) (forTokens mid) ln
          ((scanSemicolons 2 mid).getD 0 0) ((scanSemicolons 2 mid).getD 1 0)
        let s2 ← processForClause g (beginScope sc (some 2)) (forTokens mid) ln
          ((scanSemicolons 2 mid).getD 1 0) (mid.length + 2)
        .ok (some (.forStatement s0 s1 s2 none ln), beginScope sc (some 2))
      else .error ⟨"Expected exactly two semicolons in \x27for\x27 loop header", ln⟩) := by
  show processUndefinedNode g sc (Token.keyword .FOR :: .operator .PARENTHESIS_LEFT ::
    (mid ++ [Token.operator .PARENTHESIS_RIGHT])) ln = _
  set L : List Token := Token.keyword .FOR :: .operator .PARENTHESIS_LEFT ::
    (mid ++ [Token.operator .PARENTHESIS_RIGHT]) with hLdef
  have hlen : L.length = mid.length + 3 := by simp [hLdef]
  have hlast : L.getLastD (.constant 0) = .operator .PARENTHESIS_RIGHT := by
    rw [hLdef]
    exact forTokens_getLast mid
  simp only [processUndefinedNode]
  rw [if_neg (by rw [hlen]; omega)]
  rw [if_neg (by simp [hLdef, isOperator])]
  rw [if_neg (by rw [hlast]; simp [isOperator])]
  rw [show L.length - 1 - 2 = mid.length from by omega]
  rw [show L.length - 1 = mid.length + 2 from by omega]
  rw [show L.drop 2 = mid ++ [Token.operator .PARENTHESIS_RIGHT] from rfl]
  rw [show (mid ++ [Token.operator .PARENTHESIS_RIGHT]).take mid.length = mid from by
    have h := append_take_at mid [Token.operator .PARENTHESIS_RIGHT] 0
    rw [Nat.add_zero] at h
    simpa using h]
  rfl

theorem processForClause_eq_clauseSpec (g : List GlobalVariable) (sc : ScopeContext)
    (ln : Nat) (tokens : List Token) (a b : Nat) (cl : List Token)
    (hb : b - a - 1 = cl.length)
    (hextract : (tokens.drop (a + 1)).take cl.length = cl) :
    processForClause g sc tokens ln a b = clauseSpec g sc cl ln := by
  unfold processForClause clauseSpec
  rw [hb, hextract]
  by_cases hc : cl.length = 0
  · have hnil : cl = [] := List.length_eq_zero.mp hc
    subst hnil
    simp
  · rw [if_neg hc, if_neg (by
      cases cl with
      | nil => exact absurd rfl hc
      | cons x xs => simp)]

theorem scanSemicolons_two (c1 c2 c3 : List Token)
    (h1 : ∀ t ∈ c1, ¬ isOperator t .SEMICOLON_SEPARATOR = true)
    (h2 : ∀ t ∈ c2, ¬ isOperator t .SEMICOLON_SEPARATOR = true)
    (h3 : ∀ t ∈ c3, ¬ isOperator t .SEMICOLON_SEPARATOR = true) :
    scanSemicolons 2 (c1 ++ .operator .SEMICOLON_SEPARATOR ::
        (c2 ++ .operator .SEMICOLON_SEPARATOR :: c3)) =
      [2 + c1.length, 2 + c1.length + 1 + c2.length] := by
  rw [scanSemicolons_append_nosemi c1 h1]
  rw [scanSemicolons, if_pos (by rfl)]
  rw [scanSemicolons_append_nosemi c2 h2]
  rw [scanSemicolons, if_pos (by rfl)]
  have hc3 : scanSemicolons (2 + c1.length + 1 + c2.length + 1) c3 = [] := by
    have h := scanSemicolons_append_nosemi c3 h3 [] (2 + c1.length + 1 + c2.length + 1)
    simpa using h
  rw [hc3]

/-- C5: processing a for statement fails with the dedicated compile error unless the
parenthesized header contains exactly two semicolon operators; when it does, the
up-to-three clauses delimited by them (each possibly empty) are each independently
token-processed, every non-empty clause must evaluate to exactly one statement token,
and the three results become the node's init, condition and iteration statements, in
a scope opened just before the header. Token processing of the clauses is modelled
from the spec (TokenProcessing.cpp is not under src/). -/
theorem C5_for_header (g : List GlobalVariable) (sc : ScopeContext) (ln : Nat) :
    (∀ mid : List Token,
      (mid.filter (fun t => isOperator t .SEMICOLON_SEPARATOR)).length ≠ 2 →
      processUndefinedNode g sc (forTokens mid) ln =
        .error ⟨"Expected exactly two semicolons in \x27for\x27 loop header", ln⟩) ∧
    (∀ c1 c2 c3 : List Token,
      (∀ t ∈ c1, ¬ isOperator t .SEMICOLON_SEPARATOR = true) →
      (∀ t ∈ c2, ¬ isOperator t .SEMICOLON_SEPARATOR = true) →
      (∀ t ∈ c3, ¬ isOperator t .SEMICOLON_SEPARATOR = true) →
      processUndefinedNode g sc
        (forTokens (c1 ++ .operator .SEMICOLON_SEPARATOR ::
          (c2 ++ .operator .SEMICOLON_SEPARATOR :: c3))) ln =
      (do
        let s0 ← clauseSpec g (beginScope sc (some 2)) c1 ln
        let s1 ← clauseSpec g (beginScope sc (some 2)) c2 ln
        let s2 ← clauseSpec g (beginScope sc (some 2)) c3 ln
        .ok (some (.forStatement s0 s1 s2 none ln), beginScope sc (some 2)))) := by
  constructor
  · intro mid hcount
    rw [processUndefinedNode_for]
    rw [if_neg (by rw [scanSemicolons_length]; exact hcount)]
  · intro c1 c2 c3 h1 h2 h3
    rw [processUndefinedNode_for]
    rw [scanSemicolons_two c1 c2 c3 h1 h2 h3]
    rw [if_pos (show ([2 + c1.length, 2 + c1.length + 1 + c2.length] : List Nat).length = 2
      from rfl)]
    set mid : List Token := c1 ++ .operator .SEMICOLON_SEPARATOR ::
      (c2 ++ .operator .SEMICOLON_SEPARATOR :: c3) with hmid
    have hmidlen : mid.length = c1.length + 1 + (c2.length + 1 + c3.length) := by
      simp [hmid]
      omega
    -- clause 0: tokens strictly between the opening parenthesis and the first
    -- semicolon
    have hc0 : processForClause g (beginScope sc (some 2)) (forTokens mid) ln 1
        (([2 + c1.length, 2 + c1.length + 1 + c2.length] : List Nat).getD 0 0) =
        clauseSpec g (beginScope sc (some 2)) c1 ln := by
      apply processForClause_eq_clauseSpec
      · show 2 + c1.length - 1 - 1 = c1.length
        omega
      · show ((forTokens mid).drop 2).take c1.length = c1
        rw [show (forTokens mid).drop 2 = mid ++ [Token.operator .PARENTHESIS_RIGHT]
          from rfl]
        rw [show mid ++ [Token.operator .PARENTHESIS_RIGHT] =
          c1 ++ (Token.operator .SEMICOLON_SEPARATOR ::
            (c2 ++ Token.operator .SEMICOLON_SEPARATOR :: c3) ++
            [Token.operator .PARENTHESIS_RIGHT]) from by simp [hmid]]
        have h := append_take_at c1 (Token.operator .SEMICOLON_SEPARATOR ::
          (c2 ++ Token.operator .SEMICOLON_SEPARATOR :: c3) ++
          [Token.operator .PARENTHESIS_RIGHT]) 0
        rw [Nat.add_zero] at h
        simpa using h
    -- clause 1: tokens strictly between the two semicolons
    have hc1 : processForClause g (beginScope sc (some 2)) (forTokens mid) ln
        (([2 + c1.length, 2 + c1.length + 1 + c2.length] : List Nat).getD 0 0)
        (([2 + c1.length, 2 + c1.length + 1 + c2.length] : List Nat).getD 1 0) =
        clauseSpec g (beginScope sc (some 2)) c2 ln := by
      apply processForClause_eq_clauseSpec
      · show 2 + c1.length + 1 + c2.length - (2 + c1.length) - 1 = c2.length
        omega
      · show ((forTokens mid).drop (2 + c1.length + 1)).take c2.length = c2
        rw [show 2 + c1.length + 1 = (c1.length + 1) + 2 from by omega]
        rw [show (forTokens mid).drop (c1.length + 1 + 2) =
          (mid ++ [Token.operator .PARENTHESIS_RIGHT]).drop (c1.length + 1) from rfl]
        rw [show mid ++ [Token.operator .PARENTHESIS_RIGHT] =
          c1 ++ (Token.operator .SEMICOLON_SEPARATOR ::
            (c2 ++ Token.operator .SEMICOLON_SEPARATOR ::
              (c3 ++ [Token.operator .PARENTHESIS_RIGHT]))) from by simp [hmid]]
        rw [append_drop_at c1 _ 1]
        rw [show (Token.operator .SEMICOLON_SEPARATOR ::
          (c2 ++ Token.operator .SEMICOLON_SEPARATOR ::
            (c3 ++ [Token.operator .PARENTHESIS_RIGHT]))).drop 1 =
          c2 ++ Token.operator .SEMICOLON_SEPARATOR ::
            (c3 ++ [Token.operator .PARENTHESIS_RIGHT]) from rfl]
        have h := append_take_at c2 (Token.operator .SEMICOLON_SEPARATOR ::
          (c3 ++ [Token.operator .PARENTHESIS_RIGHT])) 0
        rw [Nat.add_zero] at h
        simpa using h
    -- clause 2: tokens strictly between the second semicolon and the closing
    -- parenthesis
    have hc2 : processForClause g (beginScope sc (some 2)) (forTokens mid) ln
        (([2 + c1.length, 2 + c1.length + 1 + c2.length] : List Nat).getD 1 0)
        (mid.length + 2) =
        clauseSpec g (beginScope sc (some 2)) c3 ln := by
      apply processForClause_eq_clauseSpec
      · show mid.length + 2 - (2 + c1.length + 1 + c2.length) - 1 = c3.length
        rw [hmidlen]
        omega
      · show ((forTokens mid).drop (2 + c1.length + 1 + c2.length + 1)).take c3.length = c3
        rw [show 2 + c1.length + 1 + c2.length + 1 = ((c1.length + 1 + c2.length) + 1) + 2
          from by omega]
        rw [show (forTokens mid).drop ((c1.length + 1 + c2.length + 1) + 2) =
          (mid ++ [Token.operator .PARENTHESIS_RIGHT]).drop (c1.length + 1 + c2.length + 1)
          from rfl]
        rw [show mid ++ [Token.operator .PARENTHESIS_RIGHT] =
          (c1 ++ Token.operator .SEMICOLON_SEPARATOR :: c2) ++
            (Token.operator .SEMICOLON_SEPARATOR ::
              (c3 ++ [Token.operator .PARENTHESIS_RIGHT])) from by simp [hmid]]
        rw [show c1.length + 1 + c2.length + 1 =
          (c1 ++ Token.operator .SEMICOLON_SEPARATOR :: c2).length + 1 from by simp; omega]
        rw [append_drop_at (c1 ++ Token.operator .SEMICOLON_SEPARATOR :: c2) _ 1]
        rw [show (Token.operator .SEMICOLON_SEPARATOR ::
          (c3 ++ [Token.operator .PARENTHESIS_RIGHT])).drop 1 =
          c3 ++ [Token.operator .PARENTHESIS_RIGHT] from rfl]
        have h := append_take_at c3 [Token.operator .PARENTHESIS_RIGHT] 0
        rw [Nat.add_zero] at h
        simpa using h
    rw [hc0, hc1, hc2]

/-- C5 witness: the two conjuncts applied to concrete headers, with the definitions
evaluated: `for (1;;3)` produces the ForStatementNode with init and iteration
statements and no condition, and a header with a single semicolon fails. -/
theorem C5_for_header_witness :
    processUndefinedNode [] ⟨[], []⟩ (forTokens [Token.constant 1,
        .operator .SEMICOLON_SEPARATOR, .operator .SEMICOLON_SEPARATOR,
        Token.constant 3]) 7 =
      .ok (some (.forStatement (some (.constant 1)) none (some (.constant 3)) none 7),
        beginScope ⟨[], []⟩ (some 2)) ∧
    processUndefinedNode [] ⟨[], []⟩ (forTokens [.operator .SEMICOLON_SEPARATOR]) 7 =
      .error ⟨"Expected exactly two semicolons in \x27for\x27 loop header", 7⟩ := by
  constructor
  · have h := (C5_for_header [] ⟨[], []⟩ 7).2 [Token.constant 1] [] [Token.constant 3]
      (by decide) (by decide) (by decide)
    rw [show ([Token.constant 1, Token.operator .SEMICOLON_SEPARATOR,
      Token.operator .SEMICOLON_SEPARATOR, Token.constant 3] : List Token) =
      [Token.constant 1] ++ Token.operator .SEMICOLON_SEPARATOR ::
        ([] ++ Token.operator .SEMICOLON_SEPARATOR :: [Token.constant 3]) from rfl]
    rw [h]
    rfl
  · exact (C5_for_header [] ⟨[], []⟩ 7).1 [.operator .SEMICOLON_SEPARATOR] (by decide)

/-- ScriptFunction::getLocalVariableByIdentifier, modelled from the spec on the
local-variable list (Function.cpp is not under src/): lookup by name. -/
def getLocalVariableByIdentifier (fn : ScriptFunction) (name : String) :
    Option LocalVariable :=
  fn.mLocalVariablesById.find? (fun v => v.name = name)

/-- Parameter list parsing loop of Compiler::processFunctionHeader (Compiler.cpp
lines 599-623): each round consumes a type, an identifier and an operator that is
either the closing parenthesis (done) or a comma (continue). -/
def parseParameters (ln : Nat) : List Token → Except CompileError (List Parameter)
  | .vartype dt :: .identifier name :: .operator op :: rest =>
      if op = .PARENTHESIS_RIGHT then .ok [⟨dt, name⟩]
      else if op = .COMMA_SEPARATOR then do
        let ps ← parseParameters ln rest
        .ok (⟨dt, name⟩ :: ps)
      else
        .error ⟨"Expected comma or closing parentheses after function parameter definition",
          ln⟩
  | .vartype _ :: .identifier _ :: _ :: _ =>
      .error ⟨"Expected comma or closing parentheses after function parameter definition",
        ln⟩
  | .vartype _ :: _ :: _ :: _ =>
      .error ⟨"Expected identifier in function parameter definition", ln⟩
  | _ :: _ :: _ :: _ =>
      .error ⟨"Expected type in function parameter definition", ln⟩
  | _ => .error ⟨"Expected function parameter definition", ln⟩

/-- Loop of Compiler.cpp lines 630-635: each parameter becomes one of the function's
first local variables, in declaration order, a name already used by an earlier
parameter being the compile error "Parameter name already used". -/
def addParameterLocals (fn : ScriptFunction) (ln : Nat) :
    List Parameter → Except CompileError ScriptFunction
  | [] => .ok fn
  | p :: rest =>
      if (getLocalVariableByIdentifier fn p.mIdentifier).isSome then
        .error ⟨"Parameter name already used", ln⟩
      else
        addParameterLocals
          { fn with mLocalVariablesById :=
              fn.mLocalVariablesById ++ [⟨p.mIdentifier, p.mType, ln⟩] } ln rest

/-- Entry of the parameter parsing of Compiler::processFunctionHeader (Compiler.cpp
lines 591-595): an operator right after the opening parenthesis must be the closing
parenthesis (no parameters); anything else enters the parameter loop. -/
def parseParametersEntry (ln : Nat) (t : Token) (rest3 : List Token) :
    Except CompileError (List Parameter) :=
  match t with
  | .operator op =>
      if op = .PARENTHESIS_RIGHT then .ok []
      else .error ⟨"Expected closing parentheses or parameter definition", ln⟩
  | _ => parseParameters ln (t :: rest3)

/-- Compiler::processFunctionHeader (Compiler.cpp lines 573-643): parse return type,
name and parenthesized parameter list, create the script function in the module
(Module::addScriptFunction is modelled from the spec as appending the function),
add each parameter as the function's first local variables, and fill in the source
metadata from the line number translation. -/
def processFunctionHeader (m : ModuleState) (translation : List Interval)
    (tokens : List Token) (ln : Nat) :
    Except CompileError (ModuleState × ScriptFunction) :=
  match tokens with
  | _ :: .vartype returnType :: .identifier functionName ::
      .operator .PARENTHESIS_LEFT :: t :: rest3 => do
      let parameters ← parseParametersEntry ln t rest3
      let fn1 ← addParameterLocals ⟨functionName, returnType, parameters, [], [], "", 0⟩
        ln parameters
      let pr ← translateLineNumber translation ln
      .ok ({ m with functions := m.functions ++
              [{ fn1 with mSourceFilename := pr.2, mSourceBaseLineOffset := u32 ((ln : Int) - (pr.1 : Int)) }] },
           { fn1 with mSourceFilename := pr.2, mSourceBaseLineOffset := u32 ((ln : Int) - (pr.1 : Int)) })
  | _ :: .vartype _ :: .identifier _ :: .operator .PARENTHESIS_LEFT :: [] =>
      .error ⟨"Unexpected end of function definition", ln⟩
  | _ :: .vartype _ :: .identifier _ :: _ =>
      .error ⟨"Expected opening parentheses in function definition", ln⟩
  | _ :: .vartype _ :: _ =>
      .error ⟨"Expected an identifier in function definition", ln⟩
  | _ => .error ⟨"Expected a typename after \x27function\x27 keyword", ln⟩

/-- Scope seeding step of Compiler::processSingleFunction (Compiler.cpp lines
650-656): every entry of the function's local-variable-by-id list (exactly the
parameters at this point) is pushed into a fresh scope context before the body is
processed; opcode emission by the FunctionCompiler is out of scope here. -/
def initialScopeContext (fn : ScriptFunction) : ScopeContext :=
  ⟨fn.mLocalVariablesById, []⟩

/-- Keyword::GLOBAL branch of Compiler::processGlobalDefinitions (Compiler.cpp lines
492-513): required type and identifier, then the optional constant initializer; the
initializer check runs only when an assignment operator with at least one further
token follows, and demands exactly one constant ending the line. -/
def processGlobalNode (m : ModuleState) (tokens : List Token) (ln : Nat) :
    Except CompileError ModuleState :=
  match tokens with
  | _ :: .vartype dataType :: .identifier name :: rest2 =>
      match rest2 with
      | .operator .ASSIGN :: t2 :: rest3 =>
          match t2, rest3 with
          | .constant v, [] =>
              .ok { m with globals := m.globals ++ [⟨name, dataType, some v⟩] }
          | _, _ =>
              .error ⟨"Expected a constant value for initializing the global variable", ln⟩
      | _ => .ok { m with globals := m.globals ++ [⟨name, dataType, none⟩] }
  | _ :: .vartype _ :: _ =>
      .error ⟨"Expected an identifier in global variable definition", ln⟩
  | _ => .error ⟨"Expected a typename after \x27global\x27 keyword", ln⟩

/-- Keyword::DEFINE branch of Compiler::processGlobalDefinitions (Compiler.cpp lines
515-558): optional type, required identifier and assignment, non-empty content whose
data type must be determinable. -/
def processDefineNode (m : ModuleState) (tokens : List Token) (ln : Nat) :
    Except CompileError ModuleState :=
  let rest1 := tokens.drop 1
  let parsed : Option DataType × List Token :=
    match rest1 with
    | .vartype dt :: r => (some dt, r)
    | r => (none, r)
  match parsed.2 with
  | .identifier name :: rest3 =>
      match rest3 with
      | .operator .ASSIGN :: content =>
          match content with
          | [] => .error ⟨"Missing define content", ln⟩
          | c0 :: _ => do
              let dataType ←
                match parsed.1 with
                | some dt => Except.ok dt
                | none =>
                    match c0 with
                    | .vartype dt => Except.ok dt
                    | _ => .error ⟨"Data type of define could not be determined", ln⟩
              .ok { m with defines := m.defines ++ [⟨name, dataType, content⟩] }
      | _ => .error ⟨"Expected \x27=\x27 in define", ln⟩
  | _ => .error ⟨"Expected an identifier for define", ln⟩

/-- Scan loop of Compiler::processGlobalDefinitions (Compiler.cpp lines 438-571) with
the pending pragma contents as accumulator: pragma nodes accumulate; an undefined
node is dispatched on its first keyword (a function header must be followed by a
block node, which is consumed into the new FunctionNode and removed from the list,
and the pending pragmas are appended to the function), and any undefined node clears
the pending pragmas; every other node is left in place and leaves the pending
pragmas untouched. The returned function list lives in the module; function nodes
reference it by index. -/
def processGlobalDefsLoop (translation : List Interval) (m : ModuleState)
    (pending : List String) : List Node → Except CompileError (ModuleState × List Node)
  | [] => .ok (m, [])
  | node :: rest =>
      match node with
      | .pragma content pln => do
          let r ← processGlobalDefsLoop translation m (pending ++ [content]) rest
          .ok (r.1, .pragma content pln :: r.2)
      | .undefined tokens uln =>
          match tokens with
          | .keyword .FUNCTION :: _ =>
              match rest with
              | [] => .error ⟨"Function definition as last node is not allowed", uln⟩
              | next :: rest' =>
                  match next with
                  | .block body bln => do
                      let p ← processFunctionHeader m translation tokens uln
                      let withPragmas := { p.1 with functions := p.1.functions.dropLast ++
                        [{ p.2 with mPragmas := p.2.mPragmas ++ pending }] }
                      let r ← processGlobalDefsLoop translation withPragmas [] rest'
                      .ok (r.1, .functionNode m.functions.length (.block body bln) uln :: r.2)
                  | _ => .error ⟨"Expected block node after function header", uln⟩
          | .keyword .GLOBAL :: _ => do
              let m1 ← processGlobalNode m tokens uln
              let r ← processGlobalDefsLoop translation m1 [] rest
              .ok (r.1, .undefined tokens uln :: r.2)
          | .keyword .DEFINE :: _ => do
              let m1 ← processDefineNode m tokens uln
              let r ← processGlobalDefsLoop translation m1 [] rest
              .ok (r.1, .undefined tokens uln :: r.2)
          | _ => do
              let r ← processGlobalDefsLoop translation m [] rest
              .ok (r.1, .undefined tokens uln :: r.2)
      | other => do
          let r ← processGlobalDefsLoop translation m pending rest
          .ok (r.1, other :: r.2)

/-- Compiler::processGlobalDefinitions on the root block's children. -/
def processGlobalDefinitions (m : ModuleState) (translation : List Interval)
    (nodes : List Node) : Except CompileError (ModuleState × List Node) :=
  processGlobalDefsLoop translation m [] nodes

/-- Contents of the pragma nodes of a node list, in order. -/
def pragmaContents (nodes : List Node) : List String :=
  nodes.filterMap (fun n => match n with | .pragma content _ => some content | _ => none)

/-- Reading of claim C8 taken literally from the specification wording, for comparison
with the source behaviour: the pragma contents seen since the last node that is not a
pragma node. -/
def pragmasSinceLastNonPragma (nodes : List Node) : List String :=
  nodes.foldl (fun acc n => match n with | .pragma content _ => acc ++ [content] | _ => [])
    []

theorem exceptBind_eq_ok {α β : Type} {x : Except CompileError α}
    {f : α → Except CompileError β} {b : β} (h : (x >>= f) = .ok b) :
    ∃ a, x = .ok a ∧ f a = .ok b := by
  cases x with
  | error e => exact absurd h (by simp [Bind.bind, Except.bind])
  | ok a => exact ⟨a, rfl, h⟩

theorem addParameterLocals_ok (ln : Nat) :
    ∀ (ps : List Parameter) (fn fn' : ScriptFunction),
      addParameterLocals fn ln ps = .ok fn' →
      fn'.mLocalVariablesById = fn.mLocalVariablesById ++
        ps.map (fun p => (⟨p.mIdentifier, p.mType, ln⟩ : LocalVariable)) ∧
      fn'.name = fn.name ∧ fn'.returnType = fn.returnType ∧
      fn'.parameters = fn.parameters ∧ fn'.mPragmas = fn.mPragmas ∧
      ((fn.mLocalVariablesById.map LocalVariable.name).Nodup →
        (fn'.mLocalVariablesById.map LocalVariable.name).Nodup)
  | [], fn, fn', h => by
      simp only [addParameterLocals, Except.ok.injEq] at h
      subst h
      simp
  | p :: rest, fn, fn', h => by
      cases hfound : getLocalVariableByIdentifier fn p.mIdentifier with
      | some v => simp [addParameterLocals, hfound] at h
      | none =>
          simp only [addParameterLocals, hfound, Option.isSome_none, Bool.false_eq_true,
            if_false] at h
          obtain ⟨h1, h2, h3, h4, h5, h6⟩ := addParameterLocals_ok ln rest _ fn' h
          have hnotin : ∀ v ∈ fn.mLocalVariablesById, ¬(v.name = p.mIdentifier) := by
            simpa [getLocalVariableByIdentifier, List.find?_eq_none] using hfound
          refine ⟨?_, h2, h3, h4, h5, ?_⟩
          · rw [h1]
            simp [List.append_assoc]
          · intro hnodup
            apply h6
            have hnotmem : p.mIdentifier ∉ fn.mLocalVariablesById.map LocalVariable.name := by
              simp only [List.mem_map, not_exists]
              rintro v ⟨hv, heq⟩
              exact hnotin v hv heq
            simp [List.nodup_append, hnodup, hnotmem]

/-- C6: For every successfully parsed function header, the resulting script function's
local-variable-by-id list is exactly its parameters mapped to local variables, one per
parameter, in declaration order (a duplicated parameter name is the compile error
"Parameter name already used", hence the parameter names of a successful header are
pairwise distinct), and the scope context built by processSingleFunction is seeded with
exactly these parameter locals. -/
theorem C6_parameter_locals (m : ModuleState) (translation : List Interval)
    (tokens : List Token) (ln : Nat) (m' : ModuleState) (fn : ScriptFunction)
    (h : processFunctionHeader m translation tokens ln = .ok (m', fn)) :
    fn.mLocalVariablesById =
      fn.parameters.map (fun p => (⟨p.mIdentifier, p.mType, ln⟩ : LocalVariable)) ∧
    (fn.parameters.map Parameter.mIdentifier).Nodup ∧
    (initialScopeContext fn).mLocalVariables = fn.mLocalVariablesById := by
  unfold processFunctionHeader at h
  split at h
  · obtain ⟨parameters, _hp, h⟩ := exceptBind_eq_ok h
    obtain ⟨fn1, ha, h⟩ := exceptBind_eq_ok h
    obtain ⟨pr, _ht, h⟩ := exceptBind_eq_ok h
    injection h with h
    rw [Prod.mk.injEq] at h
    obtain ⟨_hm, hf⟩ := h
    subst hf
    obtain ⟨h1, _h2, _h3, h4, _h5, h6⟩ := addParameterLocals_ok ln parameters _ fn1 ha
    simp only [List.nil_append] at h1
    refine ⟨?_, ?_, rfl⟩
    · show fn1.mLocalVariablesById = fn1.parameters.map _
      rw [h1, h4]
    · show (fn1.parameters.map Parameter.mIdentifier).Nodup
      have hnd := h6 (by simp)
      rw [h1] at hnd
      rw [h4]
      simpa [List.map_map, Function.comp] using hnd
  all_goals exact absurd h (by simp)

def cToksC6 : List Token :=
  [.keyword .FUNCTION, .vartype "s16", .identifier "Add", .operator .PARENTHESIS_LEFT,
   .vartype "s16", .identifier "a", .operator .COMMA_SEPARATOR,
   .vartype "s16", .identifier "b", .operator .PARENTHESIS_RIGHT]

def cFnC6 : ScriptFunction :=
  ⟨"Add", "s16", [⟨"s16", "a"⟩, ⟨"s16", "b"⟩], [⟨"a", "s16", 7⟩, ⟨"b", "s16", 7⟩], [],
   "main.lemon", 0⟩

def cModC6 : ModuleState := { emptyModule with functions := [cFnC6] }

theorem C6_parameter_locals_witness :
    cFnC6.mLocalVariablesById =
      cFnC6.parameters.map (fun p => (⟨p.mIdentifier, p.mType, 7⟩ : LocalVariable)) ∧
    (cFnC6.parameters.map Parameter.mIdentifier).Nodup ∧
    (initialScopeContext cFnC6).mLocalVariables = cFnC6.mLocalVariablesById :=
  C6_parameter_locals emptyModule [⟨0, "main.lemon", 0⟩] cToksC6 7 cModC6 cFnC6 rfl

/-- C9: For a top-level global declaration with valid type and identifier, trailing
tokens after the identifier that do not start with an assignment operator followed by
at least one further token — nothing at all, a single trailing assignment operator, or
trailing tokens not beginning with the assignment operator — are silently ignored: the
global variable is registered without an initial value and no error is raised; the
error "Expected a constant value for initializing the global variable" arises exactly
when the assignment operator is followed by tokens that are not one single constant
ending the line. -/
theorem C9_global_initializer (m : ModuleState) (kw : Token) (dt : DataType)
    (name : String) (ln : Nat) :
    (processGlobalNode m [kw, .vartype dt, .identifier name] ln =
       .ok { m with globals := m.globals ++ [⟨name, dt, none⟩] }) ∧
    (processGlobalNode m [kw, .vartype dt, .identifier name, .operator .ASSIGN] ln =
       .ok { m with globals := m.globals ++ [⟨name, dt, none⟩] }) ∧
    (∀ t rest, t ≠ .operator .ASSIGN →
       processGlobalNode m (kw :: .vartype dt :: .identifier name :: t :: rest) ln =
         .ok { m with globals := m.globals ++ [⟨name, dt, none⟩] }) ∧
    (∀ v, processGlobalNode m
         [kw, .vartype dt, .identifier name, .operator .ASSIGN, .constant v] ln =
       .ok { m with globals := m.globals ++ [⟨name, dt, some v⟩] }) ∧
    (∀ t2 rest3, (∀ v, ¬(t2 = .constant v ∧ rest3 = [])) →
       processGlobalNode m
           (kw :: .vartype dt :: .identifier name :: .operator .ASSIGN :: t2 :: rest3) ln =
         .error ⟨"Expected a constant value for initializing the global variable", ln⟩) := by
  refine ⟨rfl, rfl, ?_, fun v => rfl, ?_⟩
  · intro t rest ht
    cases t
    case operator op =>
      cases op
      case ASSIGN => exact absurd rfl ht
      all_goals simp [processGlobalNode]
    all_goals simp [processGlobalNode]
  · intro t2 rest3 hne
    cases t2
    case constant v =>
      cases rest3 with
      | nil => exact absurd ⟨rfl, rfl⟩ (hne v)
      | cons r rs => simp [processGlobalNode]
    all_goals simp [processGlobalNode]

theorem C9_global_initializer_witness :
    (processGlobalNode emptyModule
        [.keyword .GLOBAL, .vartype "u8", .identifier "score", .identifier "junk"] 3 =
      .ok { emptyModule with globals := [⟨"score", "u8", none⟩] }) ∧
    (processGlobalNode emptyModule
        [.keyword .GLOBAL, .vartype "u8", .identifier "score", .operator .ASSIGN,
         .constant 5] 3 =
      .ok { emptyModule with globals := [⟨"score", "u8", some 5⟩] }) ∧
    (processGlobalNode emptyModule
        [.keyword .GLOBAL, .vartype "u8", .identifier "score", .operator .ASSIGN,
         .constant 5, .constant 6] 3 =
      .error ⟨"Expected a constant value for initializing the global variable", 3⟩) := by
  refine ⟨?_, ?_, ?_⟩
  · exact (C9_global_initializer emptyModule (.keyword .GLOBAL) "u8" "score" 3).2.2.1
      (.identifier "junk") [] (by simp)
  · exact (C9_global_initializer emptyModule (.keyword .GLOBAL) "u8" "score" 3).2.2.2.1 5
  · exact (C9_global_initializer emptyModule (.keyword .GLOBAL) "u8" "score" 3).2.2.2.2
      (.constant 5) [.constant 6] (by intro v hv; simp at hv)

theorem processGlobalDefsLoop_pre (tl : List Interval) (pre : List Node) :
    (∀ n ∈ pre, (∃ c l, n = Node.pragma c l) ∨ (∃ bs l, n = Node.block bs l)) →
    ∀ (m : ModuleState) (pending : List String) (others : List Node),
      processGlobalDefsLoop tl m pending (pre ++ others) =
        (processGlobalDefsLoop tl m (pending ++ pragmaContents pre) others).map
          (fun r => (r.1, pre ++ r.2)) := by
  induction pre with
  | nil =>
      intro _ m pending others
      cases hres : processGlobalDefsLoop tl m pending others <;>
        simp [pragmaContents, hres, Except.map]
  | cons n pre' ih =>
      intro hpre m pending others
      have hrest : ∀ x ∈ pre', (∃ c l, x = Node.pragma c l) ∨ (∃ bs l, x = Node.block bs l) :=
        fun x hx => hpre x (List.mem_cons_of_mem _ hx)
      have ih' := ih hrest
      rcases hpre n (List.mem_cons_self n pre') with ⟨c, l, rfl⟩ | ⟨bs, l, rfl⟩
      · rw [List.cons_append]
        have hstep : processGlobalDefsLoop tl m pending (Node.pragma c l :: (pre' ++ others)) =
            (processGlobalDefsLoop tl m (pending ++ [c]) (pre' ++ others)) >>= fun r =>
              Except.ok (r.1, Node.pragma c l :: r.2) := by
          simp [processGlobalDefsLoop]
        rw [hstep, ih' m (pending ++ [c]) others]
        have hpc : pragmaContents (Node.pragma c l :: pre') = c :: pragmaContents pre' := by
          simp [pragmaContents]
        rw [hpc, show pending ++ (c :: pragmaContents pre') =
          (pending ++ [c]) ++ pragmaContents pre' from by simp]
        cases hres : processGlobalDefsLoop tl m ((pending ++ [c]) ++ pragmaContents pre')
            others <;>
          simp [hres, Except.map, Bind.bind, Except.bind]
      · rw [List.cons_append]
        have hstep : processGlobalDefsLoop tl m pending (Node.block bs l :: (pre' ++ others)) =
            (processGlobalDefsLoop tl m pending (pre' ++ others)) >>= fun r =>
              Except.ok (r.1, Node.block bs l :: r.2) := by
          simp [processGlobalDefsLoop]
        rw [hstep, ih' m pending others]
        have hpc : pragmaContents (Node.block bs l :: pre') = pragmaContents pre' := by
          simp [pragmaContents]
        rw [hpc]
        cases hres : processGlobalDefsLoop tl m (pending ++ pragmaContents pre') others <;>
          simp [hres, Except.map, Bind.bind, Except.bind]

theorem processGlobalDefsLoop_global (tl : List Interval) (m : ModuleState)
    (pending : List String) (gtype : DataType) (gname : String) (gln : Nat)
    (others : List Node) :
    processGlobalDefsLoop tl m pending
        (Node.undefined [.keyword .GLOBAL, .vartype gtype, .identifier gname] gln ::
          others) =
      (processGlobalDefsLoop tl { m with globals := m.globals ++ [⟨gname, gtype, none⟩] }
          [] others).map
        (fun r => (r.1,
          Node.undefined [.keyword .GLOBAL, .vartype gtype, .identifier gname] gln :: r.2)) := by
  cases hres : processGlobalDefsLoop tl
      { m with globals := m.globals ++ [⟨gname, gtype, none⟩] } [] others <;>
    simp [processGlobalDefsLoop, processGlobalNode, hres, Except.map, Bind.bind, Except.bind]

/-- The script function produced by a parameterless function header at line `fln`,
with the source metadata coming from the line number translation. -/
def headerFunction (cur : Interval) (tlrest : List Interval) (rtype : DataType)
    (fname : String) (fln : Nat) : ScriptFunction :=
  ⟨fname, rtype, [], [], [],
   (translateLoop cur tlrest fln).mFilename,
   u32 ((fln : Int) -
     (u32 ((fln : Int) - ((translateLoop cur tlrest fln).mStartLineNumber : Int) +
       ((translateLoop cur tlrest fln).mLineOffsetInFile : Int)) : Int))⟩

theorem processFunctionHeader_noParams (m : ModuleState) (cur : Interval)
    (tlrest : List Interval) (rtype : DataType) (fname : String) (fln : Nat) :
    processFunctionHeader m (cur :: tlrest)
        [.keyword .FUNCTION, .vartype rtype, .identifier fname,
         .operator .PARENTHESIS_LEFT, .operator .PARENTHESIS_RIGHT] fln =
      .ok ({ m with functions := m.functions ++ [headerFunction cur tlrest rtype fname fln] },
           headerFunction cur tlrest rtype fname fln) := rfl

theorem processGlobalDefsLoop_function (cur : Interval) (tlrest : List Interval)
    (m : ModuleState) (pending : List String) (rtype : DataType) (fname : String)
    (fln : Nat) (body : List Node) (bln : Nat) (others : List Node) :
    processGlobalDefsLoop (cur :: tlrest) m pending
        (Node.undefined [.keyword .FUNCTION, .vartype rtype, .identifier fname,
            .operator .PARENTHESIS_LEFT, .operator .PARENTHESIS_RIGHT] fln ::
          Node.block body bln :: others) =
      (processGlobalDefsLoop (cur :: tlrest)
          { m with functions := m.functions ++
              [{ headerFunction cur tlrest rtype fname fln with mPragmas := pending }] }
          [] others).map
        (fun r => (r.1,
          Node.functionNode m.functions.length (Node.block body bln) fln :: r.2)) := by
  cases hres : processGlobalDefsLoop (cur :: tlrest)
      { m with functions := m.functions ++
          [{ headerFunction cur tlrest rtype fname fln with mPragmas := pending }] }
      [] others <;>
    (simp only [headerFunction] at hres;
     simp [processGlobalDefsLoop, processFunctionHeader_noParams, List.dropLast_concat,
       headerFunction, hres, Except.map, Bind.bind, Except.bind])

def cNodesC8 : List Node :=
  [Node.pragma "A" 1, Node.block [] 2,
   Node.undefined [.keyword .FUNCTION, .vartype "void", .identifier "f",
     .operator .PARENTHESIS_LEFT, .operator .PARENTHESIS_RIGHT] 3,
   Node.block [] 4]

/-- C8 counterexample: a top-level node list consisting of a pragma, then a block node,
then a function definition. The block node is a non-pragma top-level node standing
between the pragma and the function, so under the claim the function would receive no
pragmas; the source only clears the collected pragmas at undefined nodes, so the
function receives the pragma "A". -/
theorem C8_counterexample :
    (∃ m' rest, processGlobalDefinitions emptyModule [⟨0, "main.lemon", 0⟩] cNodesC8 =
        .ok (m', rest) ∧ m'.functions.map ScriptFunction.mPragmas = [["A"]]) ∧
    pragmasSinceLastNonPragma (cNodesC8.take 2) = [] :=
  ⟨⟨_, _, rfl, rfl⟩, rfl⟩

/-- C8 (amended): during the global-definitions scan, the pragma nodes seen since the
last undefined top-level node (pragmas and stray block nodes in between do not reset
the collection) are appended, in order, to the pragma list of the next function
definition; a global declaration clears the collection without attaching the pragmas
to the global variable. -/
theorem C8_pragma_attachment_amended (cur : Interval) (tlrest : List Interval)
    (pre1 pre2 : List Node)
    (hpre1 : ∀ n ∈ pre1, (∃ c l, n = Node.pragma c l) ∨ (∃ bs l, n = Node.block bs l))
    (hpre2 : ∀ n ∈ pre2, (∃ c l, n = Node.pragma c l) ∨ (∃ bs l, n = Node.block bs l))
    (gtype rtype : DataType) (gname fname : String) (body : List Node)
    (gln fln bln : Nat) :
    ∃ (m' : ModuleState) (rest : List Node) (fn : ScriptFunction),
      processGlobalDefinitions emptyModule (cur :: tlrest)
          (pre1 ++ Node.undefined [.keyword .GLOBAL, .vartype gtype, .identifier gname] gln ::
           (pre2 ++ [Node.undefined [.keyword .FUNCTION, .vartype rtype, .identifier fname,
              .operator .PARENTHESIS_LEFT, .operator .PARENTHESIS_RIGHT] fln,
            Node.block body bln])) = .ok (m', rest) ∧
      m'.functions = [fn] ∧
      fn.mPragmas = pragmaContents pre2 ∧
      m'.globals = [⟨gname, gtype, none⟩] := by
  unfold processGlobalDefinitions
  rw [processGlobalDefsLoop_pre (cur :: tlrest) pre1 hpre1 emptyModule [] _,
    processGlobalDefsLoop_global, processGlobalDefsLoop_pre (cur :: tlrest) pre2 hpre2 _ [] _,
    processGlobalDefsLoop_function]
  simp only [processGlobalDefsLoop, Except.map, emptyModule, List.nil_append,
    List.append_nil]
  exact ⟨_, _, _, rfl, rfl, rfl, rfl⟩

theorem C8_pragma_attachment_amended_witness :
    ∃ (m' : ModuleState) (rest : List Node) (fn : ScriptFunction),
      processGlobalDefinitions emptyModule [⟨0, "main.lemon", 0⟩]
          ([Node.pragma "P0" 0] ++
           Node.undefined [.keyword .GLOBAL, .vartype "u8", .identifier "g"] 2 ::
           ([Node.pragma "A" 5, Node.block [] 6, Node.pragma "B" 7] ++
            [Node.undefined [.keyword .FUNCTION, .vartype "void", .identifier "f",
               .operator .PARENTHESIS_LEFT, .operator .PARENTHESIS_RIGHT] 8,
             Node.block [] 9])) = .ok (m', rest) ∧
      m'.functions = [fn] ∧
      fn.mPragmas = pragmaContents [Node.pragma "A" 5, Node.block [] 6, Node.pragma "B" 7] ∧
      m'.globals = [⟨"g", "u8", none⟩] :=
  C8_pragma_attachment_amended ⟨0, "main.lemon", 0⟩ [] [Node.pragma "P0" 0]
    [Node.pragma "A" 5, Node.block [] 6, Node.pragma "B" 7]
    (by
      intro n hn
      rw [List.mem_singleton] at hn
      subst hn
      exact Or.inl ⟨"P0", 0, rfl⟩)
    (by
      intro n hn
      fin_cases hn
      · exact Or.inl ⟨"A", 5, rfl⟩
      · exact Or.inr ⟨[], 6, rfl⟩
      · exact Or.inl ⟨"B", 7, rfl⟩)
    "u8" "void" "g" "f" [] 2 8 9

end LemonCompiler
